import Mathlib

/-!
Verification development for the Miro MCP server (mcp-tools repository).

We shallowly embed the pure transformation core of the two diagram-extraction
tools, frame_to_mermaid and frame_to_erd, together with the board-id
resolution helper.  Numeric item coordinates are modelled as rationals
(the restriction of JS numbers to finite values); for the bounding-box
claim, where the distinction between a non-number value and a non-finite
number matters, a separate model with explicit NaN / Infinity values is used.
JS Map objects are modelled as association lists with insertion-order keys
and replace-on-set semantics; JS Set objects as lists with add-if-absent.
JS string truthiness (undefined and the empty string are falsy) is modelled
explicitly.
-/

namespace Miro

/-- JS truthiness for an optional string: undefined and the empty string
are falsy. -/
def jsTruthy : Option String → Bool
  | none => false
  | some s => s ≠ ""

/-- JS logical-or on optional strings (used for fallback chains such as
style.fillColor || style.cardTheme || style.backgroundColor). -/
def jsStrOr (a b : Option String) : Option String :=
  if jsTruthy a then a else b

/-- A board item as consumed by the extraction tools: identifier, item type,
data.title / data.content, position.x / position.y, geometry.x / geometry.y /
geometry.width / geometry.height, and the three style fields inspected by
getItemColor.  A missing or non-numeric JSON field is modelled as none. -/
structure Item where
  id : String
  type : String
  title : Option String := none
  content : Option String := none
  posX : Option ℚ := none
  posY : Option ℚ := none
  geomX : Option ℚ := none
  geomY : Option ℚ := none
  geomW : Option ℚ := none
  geomH : Option ℚ := none
  fillColor : Option String := none
  cardTheme : Option String := none
  backgroundColor : Option String := none
deriving DecidableEq, Repr

/-- Bounding box with the six fields produced by computeItemBBox in
frame_to_mermaid. -/
structure BBox where
  left : ℚ
  right : ℚ
  top : ℚ
  bottom : ℚ
  width : ℚ
  height : ℚ
deriving DecidableEq, Repr

/-- computeItemBBox (frame_to_mermaid): x and y fall back from position to
geometry; the result is defined only when x, y, width and height are all
numeric, and is then the centre-based box. -/
def computeItemBBox (item : Item) : Option BBox :=
  let x := match item.posX with
    | some q => some q
    | none => item.geomX
  let y := match item.posY with
    | some q => some q
    | none => item.geomY
  match x, y, item.geomW, item.geomH with
  | some x, some y, some width, some height =>
      some { left := x - width / 2
             right := x + width / 2
             top := y - height / 2
             bottom := y + height / 2
             width := width
             height := height }
  | _, _, _, _ => none

/-- getItemColor: style.fillColor || style.cardTheme || style.backgroundColor
|| undefined, with JS string truthiness (an empty string falls through). -/
def getItemColor (item : Item) : Option String :=
  jsStrOr item.fillColor (jsStrOr item.cardTheme (jsStrOr item.backgroundColor none))

/-- JS Map.set on an association list: replace the value in place if the key
is present, otherwise append (insertion order is preserved). -/
def mapSet {α : Type} (m : List (String × α)) (k : String) (v : α) : List (String × α) :=
  if m.any (fun p => p.1 == k) then
    m.map (fun p => if p.1 = k then (k, v) else p)
  else
    m ++ [(k, v)]

/-- JS Map.get on an association list. -/
def mapGetA {α : Type} (m : List (String × α)) (k : String) : Option α :=
  (m.find? (fun p => p.1 == k)).map (fun p => p.2)

/-- JS Set.add on a list: append the element if it is not already present. -/
def setAdd (s : List String) (x : String) : List String :=
  if s.contains x then s else s ++ [x]

/-! ## htmlToPlain: lightweight HTML to plain text

The helper performs, in order: entity decoding, br-tag replacement,
p-tag handling, tag stripping, and whitespace normalisation followed by a
trim.  Each pass is a left-to-right non-overlapping scan, mirroring a
global regex replace. -/

/-- JS regex whitespace class (the characters relevant to this code base). -/
def isJsWs (c : Char) : Bool :=
  c = ' ' || c = '\t' || c = '\n' || c = '\r' || c = '\x0b' || c = '\x0c' ||
  c = '\u00A0' || c = '\u2028' || c = '\u2029' || c = '\uFEFF'

/-- Decode the five HTML entities handled by htmlToPlain. -/
def decodeEntities : List Char → List Char
  | '&' :: 'a' :: 'm' :: 'p' :: ';' :: rest => '&' :: decodeEntities rest
  | '&' :: 'l' :: 't' :: ';' :: rest => '<' :: decodeEntities rest
  | '&' :: 'g' :: 't' :: ';' :: rest => '>' :: decodeEntities rest
  | '&' :: 'q' :: 'u' :: 'o' :: 't' :: ';' :: rest => '"' :: decodeEntities rest
  | '&' :: '#' :: '3' :: '9' :: ';' :: rest => '\'' :: decodeEntities rest
  | c :: rest => c :: decodeEntities rest
  | [] => []

/-- Attempt to match the tail of a br tag (after the opening angle bracket):
the letters br in any case, optional whitespace, an optional slash, the
closing angle bracket, and any whitespace that follows the tag. -/
def matchBrTail (s : List Char) : Option (List Char) :=
  match s with
  | b :: r :: rest =>
    if (b = 'b' || b = 'B') && (r = 'r' || r = 'R') then
      match rest.dropWhile isJsWs with
      | '/' :: '>' :: rest3 => some (rest3.dropWhile isJsWs)
      | '>' :: rest3 => some (rest3.dropWhile isJsWs)
      | _ => none
    else none
  | _ => none

theorem matchBrTail_length {s r : List Char} (h : matchBrTail s = some r) :
    r.length < s.length := by
  match s with
  | [] => simp [matchBrTail] at h
  | [b] => simp [matchBrTail] at h
  | b :: rc :: rest =>
    simp only [matchBrTail] at h
    by_cases hb : ((b = 'b' || b = 'B') && (rc = 'r' || rc = 'R')) = true
    · rw [if_pos hb] at h
      have hdw : (rest.dropWhile isJsWs).length ≤ rest.length := (List.dropWhile_sublist isJsWs).length_le
      match hm : rest.dropWhile isJsWs with
      | '/' :: '>' :: rest3 =>
        rw [hm] at h
        simp only [Option.some.injEq] at h
        subst h
        have h3 : (rest3.dropWhile isJsWs).length ≤ rest3.length := (List.dropWhile_sublist isJsWs).length_le
        have : rest3.length + 2 ≤ rest.length := by
          rw [hm] at hdw; simpa using hdw
        simp only [List.length_cons]
        omega
      | '>' :: rest3 =>
        rw [hm] at h
        simp only [Option.some.injEq] at h
        subst h
        have h3 : (rest3.dropWhile isJsWs).length ≤ rest3.length := (List.dropWhile_sublist isJsWs).length_le
        have : rest3.length + 1 ≤ rest.length := by
          rw [hm] at hdw; simpa using hdw
        simp only [List.length_cons]
        omega
      | [] => rw [hm] at h; simp at h
      | c :: rest3 =>
        rw [hm] at h
        by_cases hc : c = '/'
        · subst hc
          match rest3 with
          | [] => simp at h
          | c2 :: rest4 =>
            by_cases hc2 : c2 = '>'
            · subst hc2
              simp only [Option.some.injEq] at h
              subst h
              have h4 : (rest4.dropWhile isJsWs).length ≤ rest4.length :=
                (List.dropWhile_sublist isJsWs).length_le
              have : rest4.length + 2 ≤ rest.length := by
                rw [hm] at hdw; simpa using hdw
              simp only [List.length_cons]
              omega
            · simp [hc2] at h
        · by_cases hgt : c = '>'
          · subst hgt
            simp only [Option.some.injEq] at h
            subst h
            have h4 : (rest3.dropWhile isJsWs).length ≤ rest3.length :=
              (List.dropWhile_sublist isJsWs).length_le
            have : rest3.length + 1 ≤ rest.length := by
              rw [hm] at hdw; simpa using hdw
            simp only [List.length_cons]
            omega
          · simp [hc, hgt] at h
    · rw [if_neg hb] at h; simp at h

/-- Replace br tags (and trailing whitespace) by a newline. -/
def stripBrs (s : List Char) : List Char :=
  match s with
  | [] => []
  | c :: rest =>
    if hc : c = '<' then
      match hm : matchBrTail rest with
      | some rem =>
        have : rem.length < rest.length + 1 :=
          Nat.lt_of_lt_of_le (matchBrTail_length hm) (Nat.le_succ _)
        '\n' :: stripBrs rem
      | none => c :: stripBrs rest
    else c :: stripBrs rest
termination_by s.length
decreasing_by
  · simpa using this
  · simp
  · simp

/-- Remove opening p tags (case-insensitive). -/
def stripPOpen : List Char → List Char
  | '<' :: 'p' :: '>' :: rest => stripPOpen rest
  | '<' :: 'P' :: '>' :: rest => stripPOpen rest
  | c :: rest => c :: stripPOpen rest
  | [] => []

/-- Replace closing p tags (case-insensitive) by a newline. -/
def stripPClose : List Char → List Char
  | '<' :: '/' :: 'p' :: '>' :: rest => '\n' :: stripPClose rest
  | '<' :: '/' :: 'P' :: '>' :: rest => '\n' :: stripPClose rest
  | c :: rest => c :: stripPClose rest
  | [] => []

/-- After an opening angle bracket: require at least one character that is
not a closing angle bracket, then scan to the first closing angle bracket. -/
def tagTailAux : List Char → Option (List Char)
  | [] => none
  | c :: rest => if c = '>' then some rest else tagTailAux rest

def tagTail (s : List Char) : Option (List Char) :=
  match s with
  | [] => none
  | c :: rest => if c = '>' then none else tagTailAux rest

theorem tagTailAux_length {s r : List Char} (h : tagTailAux s = some r) :
    r.length < s.length := by
  induction s with
  | nil => simp [tagTailAux] at h
  | cons c rest ih =>
    simp only [tagTailAux] at h
    by_cases hc : c = '>'
    · rw [if_pos hc] at h
      simp only [Option.some.injEq] at h
      subst h
      simp
    · rw [if_neg hc] at h
      exact Nat.lt_trans (ih h) (by simp)

theorem tagTail_length {s r : List Char} (h : tagTail s = some r) :
    r.length < s.length := by
  match s with
  | [] => simp [tagTail] at h
  | c :: rest =>
    simp only [tagTail] at h
    by_cases hc : c = '>'
    · rw [if_pos hc] at h; simp at h
    · rw [if_neg hc] at h
      exact Nat.lt_trans (tagTailAux_length h) (by simp)

/-- Strip remaining tags: any angle-bracketed run with a non-empty body. -/
def stripTags (s : List Char) : List Char :=
  match s with
  | [] => []
  | c :: rest =>
    if hc : c = '<' then
      match hm : tagTail rest with
      | some rem =>
        have : rem.length < rest.length + 1 :=
          Nat.lt_of_lt_of_le (tagTail_length hm) (Nat.le_succ _)
        stripTags rem
      | none => c :: stripTags rest
    else c :: stripTags rest
termination_by s.length
decreasing_by
  · simpa using this
  · simp
  · simp

/-- Collapse every whitespace run into a single space. -/
def collapseWs (s : List Char) : List Char :=
  match s with
  | [] => []
  | c :: rest =>
    if isJsWs c then
      have : (rest.dropWhile isJsWs).length < rest.length + 1 :=
        Nat.lt_of_le_of_lt ((List.dropWhile_sublist isJsWs).length_le) (Nat.lt_succ_self _)
      ' ' :: collapseWs (rest.dropWhile isJsWs)
    else c :: collapseWs rest
termination_by s.length
decreasing_by
  · simpa using this
  · simp

/-- JS String.prototype.trim on a character list. -/
def jsTrimChars (s : List Char) : List Char :=
  ((s.dropWhile isJsWs).reverse.dropWhile isJsWs).reverse

/-- htmlToPlain: the full pipeline over a character list. -/
def htmlToPlainChars (s : List Char) : List Char :=
  jsTrimChars (collapseWs (stripTags (stripPClose (stripPOpen (stripBrs (decodeEntities s))))))

/-- htmlToPlain: empty result for a falsy argument, else the cleaning
pipeline. -/
def htmlToPlain (textHtml : Option String) : String :=
  if jsTruthy textHtml then
    match textHtml with
    | some s => String.mk (htmlToPlainChars s.data)
    | none => ""
  else ""

/-- plainSnippet: htmlToPlain truncated to maxLen characters. -/
def plainSnippet (textHtml : Option String) (maxLen : Nat) : String :=
  let base := htmlToPlain textHtml
  if base.length ≤ maxLen then base else String.mk (base.data.take maxLen)

/-! ## frame_to_mermaid: nodes, lookup maps, size and colour statistics -/

/-- The item types treated as diagram nodes. -/
def nodeTypes : List String := ["shape", "sticky_note", "card"]

/-- Node label: (data.title || data.content || ''), then
plainSnippet(labelSource || id, 80), falling back to the id when empty. -/
def labelOf (it : Item) : String :=
  let labelSource := jsStrOr it.title (jsStrOr it.content (some ""))
  let label := plainSnippet (jsStrOr labelSource (some it.id)) 80
  if label = "" then it.id else label

/-- The filtered list of diagrammable items. -/
def nodeItems (items : List Item) : List Item :=
  items.filter (fun it => nodeTypes.contains it.type)

/-- A rendered node record: id, alias, type and label. -/
structure NodeRec where
  id : String
  aliasName : String
  type : String
  label : String
deriving DecidableEq, Repr

/-- The node list, aliases numbered n1, n2, ... in iteration order. -/
def nodesOf (items : List Item) : List NodeRec :=
  (nodeItems items).enum.map (fun p =>
    { id := p.2.id
      aliasName := "n" ++ toString (p.1 + 1)
      type := p.2.type
      label := labelOf p.2 })

/-- idToItem map. -/
def idToItemM (items : List Item) : List (String × Item) :=
  (nodeItems items).foldl (fun m it => mapSet m it.id it) []

/-- idToAlias map. -/
def idToAliasM (items : List Item) : List (String × String) :=
  (nodesOf items).foldl (fun m n => mapSet m n.id n.aliasName) []

/-- idToNode map. -/
def idToNodeM (items : List Item) : List (String × NodeRec) :=
  (nodesOf items).foldl (fun m n => mapSet m n.id n) []

/-- idToBBox map: for each node, the bounding box of the item stored under
its id, when resolvable. -/
def idToBBoxM (items : List Item) : List (String × BBox) :=
  (nodesOf items).foldl (fun m n =>
    match mapGetA (idToItemM items) n.id with
    | none => m
    | some it =>
      match computeItemBBox it with
      | some b => mapSet m n.id b
      | none => m) []

/-- The id list iterated by the geometry heuristics. -/
def nodeIds (items : List Item) : List String :=
  (nodesOf items).map (fun n => n.id)

/-- Bounding-box lookup (idToBBox.get). -/
def bboxOf (items : List Item) (id : String) : Option BBox :=
  mapGetA (idToBBoxM items) id

/-- Colour lookup: getItemColor(idToItem.get(id)); undefined when the id is
not mapped. -/
def colorOfId (items : List Item) (id : String) : Option String :=
  match mapGetA (idToItemM items) id with
  | some it => getItemColor it
  | none => none

/-- The list of bounding-box areas pushed by the statistics loop. -/
def areasOf (items : List Item) : List ℚ :=
  (nodeIds items).filterMap (fun id =>
    (bboxOf items id).map (fun b => b.width * b.height))

/-- colorStats: per colour, the count and cumulative area, over items with a
resolvable box and a truthy colour. -/
def colorStatsM (items : List Item) : List (String × (Nat × ℚ)) :=
  (nodeIds items).foldl (fun m id =>
    match bboxOf items id with
    | none => m
    | some b =>
      let area := b.width * b.height
      match colorOfId items id with
      | some c =>
        if c ≠ "" then
          let stat := match mapGetA m c with
            | some st => st
            | none => (0, 0)
          mapSet m c (stat.1 + 1, stat.2 + area)
        else m
      | none => m) []

/-- Stable insertion of an element into a list ordered by the given
before-or-equal test (mirrors the stability of Array.prototype.sort). -/
def insertLe {α : Type} (le : α → α → Bool) (x : α) : List α → List α
  | [] => [x]
  | y :: ys => if le x y then x :: y :: ys else y :: insertLe le x ys

/-- Stable sort by the given before-or-equal test. -/
def sortLe {α : Type} (le : α → α → Bool) : List α → List α
  | [] => []
  | x :: xs => insertLe le x (sortLe le xs)

/-- medianArea: middle element of the ascending area list, 0 when empty. -/
def medianArea (items : List Item) : ℚ :=
  let sortedAreas := sortLe (fun a b : ℚ => a ≤ b) (areasOf items)
  match sortedAreas.get? (sortedAreas.length / 2) with
  | some a => a
  | none => 0

/-- regionThreshold: three times the median area when the median is
positive. -/
def regionThreshold (items : List Item) : ℚ :=
  if medianArea items > 0 then medianArea items * 3 else 0

/-- Colour stats sorted by cumulative area, largest first (stable). -/
def colorEntries (items : List Item) : List (String × (Nat × ℚ)) :=
  sortLe (fun a b => b.2.2 ≤ a.2.2) (colorStatsM items)

/-- regionColors: colours taken from the sorted entries while the cumulative
area stays at least 30 percent of the largest cumulative area. -/
def regionColors (items : List Item) : List String :=
  match colorEntries items with
  | [] => []
  | e0 :: _ =>
    ((colorEntries items).takeWhile (fun e => e0.2.2 * (3 / 10) ≤ e.2.2)).map (fun e => e.1)

/-! ## frame_to_mermaid: best-parent containment -/

/-- Minimum scale factor a parent must exceed the child by in each axis. -/
def minScaleFor (parentIsRegionColor : Bool) : ℚ :=
  if parentIsRegionColor then 102 / 100 else 105 / 100

/-- Required fraction of the child area inside the parent. -/
def requiredFracFor (parentIsRegionColor : Bool) : ℚ :=
  if parentIsRegionColor then 6 / 10 else 8 / 10

/-- The filter applied to a candidate parent in the best-parent loop:
different id, both boxes resolvable, colours not both defined and equal,
both dimensions larger by the minimum scale factor, positive intersection,
and overlap fraction at least the required threshold. -/
def acceptParent (items : List Item) (childId parentId : String) : Bool :=
  (parentId ≠ childId) &&
  (match bboxOf items childId, bboxOf items parentId with
   | some childBox, some parentBox =>
     let parentColor := colorOfId items parentId
     let childColor := colorOfId items childId
     (match parentColor, childColor with
      | some pc, some cc => pc ≠ cc
      | _, _ => true) &&
     (let parentIsRegionColor := match parentColor with
        | some pc => (regionColors items).contains pc
        | none => false
      let minScale := minScaleFor parentIsRegionColor
      (!(parentBox.width < childBox.width * minScale ||
         parentBox.height < childBox.height * minScale)) &&
      (let interLeft := max parentBox.left childBox.left
       let interRight := min parentBox.right childBox.right
       let interTop := max parentBox.top childBox.top
       let interBottom := min parentBox.bottom childBox.bottom
       let interWidth := interRight - interLeft
       let interHeight := interBottom - interTop
       (!(interWidth ≤ 0 || interHeight ≤ 0)) &&
       (let childArea := childBox.width * childBox.height
        let fracInside := interWidth * interHeight / childArea
        !(fracInside < requiredFracFor parentIsRegionColor))))
   | _, _ => false)

/-- The area of the bounding box stored under an id (0 when unresolvable;
only read for accepted candidates, whose box is always resolvable). -/
def areaOfId (items : List Item) (id : String) : ℚ :=
  match bboxOf items id with
  | some b => b.width * b.height
  | none => 0

/-- The best-parent scan: keep the accepted candidate with the strictly
smallest area, scanning candidates in list order. -/
def scanParents (items : List Item) (childId : String) :
    List String → Option (String × ℚ) → Option (String × ℚ)
  | [], best => best
  | parentId :: rest, best =>
    if acceptParent items childId parentId then
      if (match best with
          | none => true
          | some pa => decide (areaOfId items parentId < pa.2)) then
        scanParents items childId rest (some (parentId, areaOfId items parentId))
      else scanParents items childId rest best
    else scanParents items childId rest best

/-- The containment state: parentOf and childrenOf maps. -/
structure Containment where
  parentOfM : List (String × Option String)
  childrenOfM : List (String × List String)
deriving Repr

/-- One iteration of the containment loop for a child id. -/
def containmentStep (items : List Item) (st : Containment) (childId : String) : Containment :=
  match bboxOf items childId with
  | none => st
  | some _ =>
    match scanParents items childId (nodeIds items) none with
    | some best =>
      if best.1 ≠ "" then
        { parentOfM := mapSet st.parentOfM childId (some best.1)
          childrenOfM :=
            let arr := match mapGetA st.childrenOfM best.1 with
              | some a => a
              | none => []
            mapSet st.childrenOfM best.1 (arr ++ [childId]) }
      else { st with parentOfM := mapSet st.parentOfM childId none }
    | none => { st with parentOfM := mapSet st.parentOfM childId none }

/-- The containment maps after processing every node id. -/
def containmentOf (items : List Item) : Containment :=
  (nodeIds items).foldl (containmentStep items) ⟨[], []⟩

/-- The container finally assigned to an id (none when the entry is missing
or null). -/
def assignedParent (items : List Item) (id : String) : Option String :=
  match mapGetA (containmentOf items).parentOfM id with
  | some (some p) => some p
  | _ => none

/-- The parentOf entry written for a child id with a resolvable box: the
best-scan result when its id is truthy, else null. -/
def parentValue (items : List Item) (id : String) : Option String :=
  match scanParents items id (nodeIds items) none with
  | some best => if best.1 ≠ "" then some best.1 else none
  | none => none

/-- Following the assigned-container links a given number of times. -/
def parentIterate (items : List Item) : Nat → String → Option String
  | 0, id => some id
  | n + 1, id =>
    match assignedParent items id with
    | some p => parentIterate items n p
    | none => none

/-- regionIds: ids that are regions by area, or by dominant colour plus
half-median area. -/
def regionIds (items : List Item) : List String :=
  (nodeIds items).foldl (fun acc id =>
    match bboxOf items id with
    | none => acc
    | some box =>
      if regionThreshold items ≠ 0 ∧ regionThreshold items ≤ box.width * box.height then
        setAdd acc id
      else
        match colorOfId items id with
        | some c =>
          if c ≠ "" ∧ (regionColors items).contains c = true ∧
             medianArea items ≠ 0 ∧
             medianArea items * (5 / 10) ≤ box.width * box.height then
            setAdd acc id
          else acc
        | none => acc) []

/-! ## frame_to_mermaid: explicit edges, stacking inference, emission -/

/-- A connector caption. -/
structure Caption where
  content : Option String := none
deriving DecidableEq, Repr

/-- A board connector: endpoint item ids, captions and the two ERD stroke
caps read from its style. -/
structure Connector where
  id : String
  startId : Option String := none
  endId : Option String := none
  captions : List Caption := []
  startStrokeCap : Option String := none
  endStrokeCap : Option String := none
deriving DecidableEq, Repr

/-- A rendered edge record. -/
structure Edge where
  fromId : String
  toId : String
  fromAlias : String
  toAlias : String
  connectorId : String
  label : Option String := none
deriving DecidableEq, Repr

/-- The string key used by the existingPairs set for an ordered pair. -/
def pairKey (a b : String) : String :=
  a ++ "->" ++ b

/-- Processing of one connector: both endpoint ids truthy, both aliases
found, optional label from the first caption; the edge is appended and the
ordered pair recorded. -/
def explicitStep (items : List Item) (st : List Edge × List String) (c : Connector) :
    List Edge × List String :=
  match c.startId, c.endId with
  | some startId, some endId =>
    if startId ≠ "" ∧ endId ≠ "" then
      match mapGetA (idToAliasM items) startId, mapGetA (idToAliasM items) endId with
      | some fa, some ta =>
        if fa ≠ "" ∧ ta ≠ "" then
          (st.1 ++ [{ fromId := startId, toId := endId, fromAlias := fa, toAlias := ta,
                      connectorId := c.id,
                      label := match c.captions with
                        | [] => none
                        | cap :: _ =>
                          if jsTruthy cap.content then
                            if plainSnippet cap.content 40 ≠ "" then
                              some (plainSnippet cap.content 40)
                            else none
                          else none }],
           setAdd st.2 (pairKey startId endId))
        else st
      | _, _ => st
    else st
  | _, _ => st

/-- Explicit edges and the initial existingPairs set. -/
def buildExplicit (items : List Item) (connectors : List Connector) :
    List Edge × List String :=
  connectors.foldl (explicitStep items) ([], [])

/-- The grouping key: the assigned parent when it is a truthy string, else
the root group. -/
def groupKeyFor (items : List Item) (id : String) : String :=
  match mapGetA (containmentOf items).parentOfM id with
  | some (some p) => if p ≠ "" then p else "__root__"
  | _ => "__root__"

/-- Group node ids by containment parent, in iteration order. -/
def groupsOf (items : List Item) : List (String × List String) :=
  (nodeIds items).foldl (fun m id =>
    let key := groupKeyFor items id
    let arr := match mapGetA m key with
      | some a => a
      | none => []
    mapSet m key (arr ++ [id])) []

/-- Vertical centre of a box. -/
def centerY (b : BBox) : ℚ :=
  (b.top + b.bottom) / 2

/-- A group restricted to ids with a resolvable box, sorted by vertical
centre (stable). -/
def sortedGroup (items : List Item) (ids : List String) : List (String × BBox) :=
  sortLe (fun a b => centerY a.2 ≤ centerY b.2)
    (ids.filterMap (fun id => (bboxOf items id).map (fun b => (id, b))))

/-- Adjacent pairs of a list. -/
def adjacentPairs {α : Type} (l : List α) : List (α × α) :=
  l.zip l.tail

/-- One adjacent pair of the stacking loop: positive horizontal overlap,
vertical gap at most three quarters of the smaller height, ordered pair not
already present, aliases truthy; then an inferred edge is appended. -/
def inferStep (items : List Item) (st : List Edge × List String)
    (ab : (String × BBox) × (String × BBox)) : List Edge × List String :=
  let boxA := ab.1.2
  let boxB := ab.2.2
  let horizontalOverlap := min boxA.right boxB.right - max boxA.left boxB.left
  if horizontalOverlap ≤ 0 then st
  else
    let centerYA := (boxA.top + boxA.bottom) / 2
    let centerYB := (boxB.top + boxB.bottom) / 2
    let verticalGap := |centerYB - centerYA|
    let minHeight := min boxA.height boxB.height
    if verticalGap > minHeight * (75 / 100) then st
    else
      let topId := if centerYA ≤ centerYB then ab.1.1 else ab.2.1
      let bottomId := if centerYA ≤ centerYB then ab.2.1 else ab.1.1
      let key := pairKey topId bottomId
      if st.2.contains key then st
      else
        match mapGetA (idToAliasM items) topId, mapGetA (idToAliasM items) bottomId with
        | some fa, some ta =>
          if fa ≠ "" ∧ ta ≠ "" then
            (st.1 ++ [{ fromId := topId, toId := bottomId, fromAlias := fa, toAlias := ta,
                        connectorId := "inferred-dependency", label := none }],
             setAdd st.2 key)
          else st
        | _, _ => st

/-- The stacking loop over one group (groups of fewer than two ids are
skipped). -/
def inferGroup (items : List Item) (st : List Edge × List String) (ids : List String) :
    List Edge × List String :=
  if ids.length < 2 then st
  else (adjacentPairs (sortedGroup items ids)).foldl (inferStep items) st

/-- The stacking loop over all groups. -/
def inferAll (items : List Item) (st : List Edge × List String) :
    List Edge × List String :=
  (groupsOf items).foldl (fun st g => inferGroup items st g.2) st

/-- Explicit edges followed by inferred stacking edges, with the final
existingPairs set. -/
def edgesAndPairs (items : List Item) (connectors : List Connector) :
    List Edge × List String :=
  inferAll items (buildExplicit items connectors)

/-- Escape double quotes (the replacement used for edge labels). -/
def escQuote (s : String) : String :=
  String.mk (s.data.foldr (fun c acc => if c = '"' then '\\' :: '"' :: acc else c :: acc) [])

/-- emitSubgraph: containment subgraph lines for a parent, with fuel for the
recursion over the (acyclic) containment tree.  The quote-for-quote label
replacement in the source is the identity and is omitted. -/
def emitSubgraph (items : List Item) : Nat → String → String → List String
  | 0, _, _ => []
  | fuel + 1, parentId, indent =>
    let parentNode := mapGetA (idToNodeM items) parentId
    let safeLabel := match parentNode with
      | some n => if n.label ≠ "" then n.label else parentId
      | none => parentId
    let parentAlias := match parentNode with
      | some n => if n.aliasName ≠ "" then n.aliasName else parentId
      | none => parentId
    let children := match mapGetA (containmentOf items).childrenOfM parentId with
      | some a => a
      | none => []
    if children = [] then []
    else
      [indent ++ "subgraph sg_" ++ parentAlias ++ "[\"" ++ safeLabel ++ "\"]"] ++
      children.foldl (fun acc childId =>
        acc ++
          (if (mapGetA (containmentOf items).childrenOfM childId).isSome then
            emitSubgraph items fuel childId (indent ++ "  ")
          else
            match mapGetA (idToAliasM items) childId with
            | some ca => if ca ≠ "" then [indent ++ "  " ++ ca] else []
            | none => [])) [] ++
      [indent ++ "end"]

/-- emitRegionSubgraph: a region rendered as a subgraph containing only
itself. -/
def emitRegionSubgraph (items : List Item) (id : String) (indent : String) : List String :=
  match mapGetA (idToNodeM items) id with
  | none => []
  | some node =>
    [indent ++ "subgraph sg_" ++ node.aliasName ++ "[\"" ++ node.label ++ "\"]",
     indent ++ "  " ++ node.aliasName,
     indent ++ "end"]

/-- The full Mermaid flowchart text produced by frame_to_mermaid from the
fetched inputs: header, node declarations, root subgraph with containment
and region subgraphs, and edge lines. -/
def frameToMermaid (items : List Item) (connectors : List Connector)
    (direction : String) (frameTitle : Option String) (frameId : String) : String :=
  let nodes := nodesOf items
  let fuel := nodes.length + 1
  let cm := containmentOf items
  let edges := (edgesAndPairs items connectors).1
  let nodeLines := nodes.map (fun n => "  " ++ n.aliasName ++ "[\"" ++ n.label ++ "\"]")
  let rootLabel := match frameTitle with
    | some t => if t ≠ "" then t else "Frame " ++ frameId
    | none => "Frame " ++ frameId
  let topLevel := cm.childrenOfM.foldl (fun acc entry =>
    match mapGetA cm.parentOfM entry.1 with
    | some (some p) =>
      if p ≠ "" then acc else acc ++ emitSubgraph items fuel entry.1 "    "
    | _ => acc ++ emitSubgraph items fuel entry.1 "    ") []
  let regions := (regionIds items).foldl (fun acc id =>
    if (mapGetA cm.childrenOfM id).isSome then acc
    else acc ++ emitRegionSubgraph items id "    ") []
  let edgeLines := edges.map (fun e =>
    if jsTruthy e.label then
      match e.label with
      | some l => "  " ++ e.fromAlias ++ " -- \"" ++ escQuote l ++ "\" --> " ++ e.toAlias
      | none => "  " ++ e.fromAlias ++ " --> " ++ e.toAlias
    else "  " ++ e.fromAlias ++ " --> " ++ e.toAlias)
  String.intercalate "\n"
    (["flowchart " ++ direction] ++ nodeLines ++
     ["  subgraph sg_root[\"" ++ rootLabel ++ "\"]"] ++ topLevel ++ regions ++
     ["  end"] ++ edgeLines)

/-! ## frame_to_erd: cardinalities, relationship lines, pk candidates -/

/-- capToCardinality: stroke-cap style values to cardinality tokens, with
the default for falsy and unrecognized values. -/
def capToCardinality (cap : Option String) : String :=
  match cap with
  | none => "||"
  | some s =>
    if s = "" then "||"
    else if s = "erd_one" then "||"
    else if s = "erd_only_one" then "||"
    else if s = "erd_zero_or_one" then "o|"
    else if s = "erd_many" then "|\x7b"
    else if s = "erd_one_or_many" then "|\x7b"
    else if s = "erd_zero_or_many" then "o\x7b"
    else "||"

/-- The relationship line emitted for one connector in ERD mode (the
quote-for-quote label replacement in the source is the identity). -/
def erdRelationshipLine (fromEntity toEntity leftCardinality rightCardinality : String)
    (label : Option String) : String :=
  let mid := leftCardinality ++ "--" ++ rightCardinality
  let suffix := if jsTruthy label then
      match label with
      | some l => " : " ++ l
      | none => ""
    else ""
  "  " ++ fromEntity ++ " " ++ mid ++ " " ++ toEntity ++ suffix

/-- Split on the regex of an optional carriage return followed by a
newline. -/
def splitNl : List Char → List (List Char)
  | [] => [[]]
  | c :: rest =>
    if c = '\n' then [] :: splitNl rest
    else if c = '\r' ∧ rest.head? = some '\n' then splitNl rest
    else
      match splitNl rest with
      | h :: t => (c :: h) :: t
      | [] => [[c]]

/-- JS regex word character class. -/
def isWordChar (c : Char) : Bool :=
  ('a' ≤ c && c ≤ 'z') || ('A' ≤ c && c ≤ 'Z') || ('0' ≤ c && c ≤ '9') || c = '_'

/-- Case-insensitive prefix test. -/
def startsWithCI : List Char → List Char → Bool
  | [], _ => true
  | _ :: _, [] => false
  | w :: ws, c :: cs => (w.toLower = c.toLower) && startsWithCI ws cs

/-- The word matches at the head of the list and is followed by a word
boundary. -/
def wordAtCI (w s : List Char) : Bool :=
  startsWithCI w s &&
  (match s.drop w.length with
   | [] => true
   | c :: _ => !isWordChar c)

/-- Scan for a word-boundary-delimited, case-insensitive occurrence; prev
carries the character before the current position. -/
def hasWordCIAux (w : List Char) : Option Char → List Char → Bool
  | prev, [] =>
    (match prev with
     | none => true
     | some c => !isWordChar c) && wordAtCI w []
  | prev, c :: rest =>
    ((match prev with
      | none => true
      | some c0 => !isWordChar c0) && wordAtCI w (c :: rest)) ||
    hasWordCIAux w (some c) rest

/-- The test of a case-insensitive word-boundary regex such as the pk / id
patterns. -/
def hasWordCI (w s : List Char) : Bool :=
  hasWordCIAux w none s

/-- Case-insensitive substring containment (the reading used by the spec
for the pk / id heuristic). -/
def containsCI (w : List Char) : List Char → Bool
  | [] => startsWithCI w []
  | c :: rest => startsWithCI w (c :: rest) || containsCI w rest

/-- JS String.prototype.trim. -/
def jsTrimString (s : String) : String :=
  String.mk (jsTrimChars s.data)

/-- The merged title-and-content text handed to htmlToPlain by
extractPkCandidatesFromItem. -/
def mergedText (it : Item) : String :=
  let titlePart := match jsStrOr it.title (some "") with
    | some s => s
    | none => ""
  let contentPart := match jsStrOr it.content (some "") with
    | some s => s
    | none => ""
  jsTrimString (titlePart ++ "\n" ++ contentPart)

/-- The plain text a pk scan works on. -/
def pkPlainText (it : Item) : String :=
  htmlToPlain (some (mergedText it))

/-- The line list: split on newlines, each line trimmed, empty lines
dropped. -/
def linesOf (plain : String) : List (List Char) :=
  ((splitNl plain.data).map (fun l => jsTrimChars l)).filter (fun l => l ≠ [])

/-- extractPkCandidatesFromItem: lines matching the word-boundary pk or id
regex, defaulting to the first line, capped at three. -/
def extractPkCandidatesFromItem (it : Item) : List String :=
  let plain := pkPlainText it
  if plain = "" then []
  else
    let lines := linesOf plain
    let candidates := lines.filter (fun l => hasWordCI ['p', 'k'] l || hasWordCI ['i', 'd'] l)
    let candidates2 :=
      if candidates = [] then
        match lines with
        | l :: _ => [l]
        | [] => []
      else candidates
    (candidates2.take 3).map String.mk

/-- The pk-candidate extraction as the claim words it: exactly the lines
containing pk or id as a case-insensitive substring, the first line when no
line matches. -/
def specPkCandidates (it : Item) : List String :=
  let plain := pkPlainText it
  let lines := linesOf plain
  let cands := lines.filter (fun l => containsCI ['p', 'k'] l || containsCI ['i', 'd'] l)
  if cands = [] then (lines.take 1).map String.mk else cands.map String.mk

/-! ## JS-number model of computeItemBBox (for the finiteness claim) -/

/-- A JS number: finite, NaN, or a signed infinity. -/
inductive JSNum where
  | num (q : ℚ)
  | nan
  | posInf
  | negInf
deriving DecidableEq, Repr

/-- A JSON field as read by computeItemBBox: a number, or anything whose
typeof is not number (missing, null, string, ...). -/
inductive JSVal where
  | number (v : JSNum)
  | notNumber
deriving DecidableEq, Repr

/-- typeof v === number. -/
def JSVal.isNumber : JSVal → Bool
  | .number _ => true
  | .notNumber => false

/-- The claim notion of a finite number. -/
def JSNum.isFinite : JSNum → Bool
  | .num _ => true
  | _ => false

/-- IEEE-style halving. -/
def JSNum.half : JSNum → JSNum
  | .num q => .num (q / 2)
  | .nan => .nan
  | .posInf => .posInf
  | .negInf => .negInf

/-- IEEE-style addition. -/
def JSNum.add : JSNum → JSNum → JSNum
  | .nan, _ => .nan
  | .num _, .nan => .nan
  | .posInf, .nan => .nan
  | .negInf, .nan => .nan
  | .num a, .num b => .num (a + b)
  | .num _, .posInf => .posInf
  | .num _, .negInf => .negInf
  | .posInf, .num _ => .posInf
  | .posInf, .posInf => .posInf
  | .posInf, .negInf => .nan
  | .negInf, .num _ => .negInf
  | .negInf, .posInf => .nan
  | .negInf, .negInf => .negInf

/-- IEEE-style subtraction. -/
def JSNum.sub : JSNum → JSNum → JSNum
  | .nan, _ => .nan
  | .num _, .nan => .nan
  | .posInf, .nan => .nan
  | .negInf, .nan => .nan
  | .num a, .num b => .num (a - b)
  | .num _, .posInf => .negInf
  | .num _, .negInf => .posInf
  | .posInf, .num _ => .posInf
  | .posInf, .posInf => .nan
  | .posInf, .negInf => .posInf
  | .negInf, .num _ => .negInf
  | .negInf, .posInf => .negInf
  | .negInf, .negInf => .nan

/-- The six fields computeItemBBox reads, with full JS number semantics. -/
structure ItemJS where
  posX : JSVal := .notNumber
  posY : JSVal := .notNumber
  geomX : JSVal := .notNumber
  geomY : JSVal := .notNumber
  geomW : JSVal := .notNumber
  geomH : JSVal := .notNumber
deriving DecidableEq, Repr

/-- A bounding box whose coordinates may be NaN or infinite. -/
structure BBoxJS where
  left : JSNum
  right : JSNum
  top : JSNum
  bottom : JSNum
  width : JSNum
  height : JSNum
deriving DecidableEq, Repr

/-- The x coordinate after the position-to-geometry fallback. -/
def resolvedX (item : ItemJS) : JSVal :=
  if item.posX.isNumber then item.posX else item.geomX

/-- The y coordinate after the position-to-geometry fallback. -/
def resolvedY (item : ItemJS) : JSVal :=
  if item.posY.isNumber then item.posY else item.geomY

/-- computeItemBBox over JS numbers: only the typeof checks guard the
result; NaN and infinities pass them. -/
def computeItemBBoxJS (item : ItemJS) : Option BBoxJS :=
  match resolvedX item, resolvedY item, item.geomW, item.geomH with
  | .number xv, .number yv, .number wv, .number hv =>
    some { left := xv.sub wv.half
           right := xv.add wv.half
           top := yv.sub hv.half
           bottom := yv.add hv.half
           width := wv
           height := hv }
  | _, _, _, _ => none

/-! ## frame item fetching (frame_to_mermaid) and board-id resolution -/

/-- A four-field bounding box (computeFrameBBox in fetchFrameItems). -/
structure Rect where
  left : ℚ
  right : ℚ
  top : ℚ
  bottom : ℚ
deriving DecidableEq, Repr

/-- computeFrameBBox: same fallback and definedness rules as
computeItemBBox, four fields. -/
def computeFrameBBox (frame : Item) : Option Rect :=
  let x := match frame.posX with
    | some q => some q
    | none => frame.geomX
  let y := match frame.posY with
    | some q => some q
    | none => frame.geomY
  match x, y, frame.geomW, frame.geomH with
  | some x, some y, some width, some height =>
      some { left := x - width / 2
             right := x + width / 2
             top := y - height / 2
             bottom := y + height / 2 }
  | _, _, _, _ => none

/-- The board as seen by fetchFrameItems: the result of fetching the target
frame metadata (an error models a failed request), the frames listed on
the board, and the items returned for each parent_item_id query (all pages
concatenated). -/
structure FrameEnv where
  rootMeta : Except Unit Item
  boardFrames : List Item
  children : String → List Item

/-- The seed frames: the target alone when its metadata or geometry cannot
be resolved, else the target plus every other listed frame whose box lies
inside the target box. -/
def seedFrames (env : FrameEnv) (targetFrameId : String) : List String :=
  match env.rootMeta with
  | .error _ => [targetFrameId]
  | .ok rootFrame =>
    match computeFrameBBox rootFrame with
    | none => [targetFrameId]
    | some rootBBox =>
      (env.boardFrames.filter (fun fr => fr.id ≠ targetFrameId)).foldl (fun seeds fr =>
        match computeFrameBBox fr with
        | none => seeds
        | some bbox =>
          if rootBBox.left ≤ bbox.left ∧ bbox.right ≤ rootBBox.right ∧
             rootBBox.top ≤ bbox.top ∧ bbox.bottom ≤ rootBBox.bottom then
            setAdd seeds fr.id
          else seeds) [targetFrameId]

/-- True when the optional cap is set and the count has reached it. -/
def capReached (limitPerFrame : Option Nat) (count : Nat) : Bool :=
  match limitPerFrame with
  | some l => l ≤ count
  | none => false

/-- fetchDirectChildren: append the children of a frame up to the cap and
collect the ids of child frames among the appended items. -/
def fetchDirectChildren (env : FrameEnv) (limitPerFrame : Option Nat)
    (items : List Item) (frameId : String) : List Item × List String :=
  (env.children frameId).foldl (fun st it =>
    if capReached limitPerFrame st.1.length then st
    else (st.1 ++ [it], if it.type = "frame" then st.2 ++ [it.id] else st.2))
    (items, [])

/-- The breadth-first traversal over seed frames and discovered child
frames, with fuel (the real loop terminates because each iteration visits a
new frame). -/
def fetchBFS (env : FrameEnv) (limitPerFrame : Option Nat) :
    Nat → List Item → List String → List String → List Item
  | 0, items, _, _ => items
  | fuel + 1, items, visited, queue =>
    match queue with
    | [] => items
    | frameId :: rest =>
      if capReached limitPerFrame items.length then items
      else if frameId = "" ∨ visited.contains frameId then
        fetchBFS env limitPerFrame fuel items visited rest
      else
        let visited2 := visited ++ [frameId]
        let res := fetchDirectChildren env limitPerFrame items frameId
        let newQueue := rest ++ res.2.filter (fun cid => !visited2.contains cid)
        fetchBFS env limitPerFrame fuel res.1 visited2 newQueue

/-- fetchFrameItems: the items gathered from the seed frames (the function
never throws: a metadata failure only narrows the seeds). -/
def fetchFrameItems (env : FrameEnv) (limitPerFrame : Option Nat)
    (targetFrameId : String) (fuel : Nat) : List Item :=
  fetchBFS env limitPerFrame fuel [] [] (seedFrames env targetFrameId)

/-- resolveBoardId: a board_id argument that trims to a non-empty string
wins; otherwise a truthy active board; otherwise the error. -/
def resolveBoardId (argBoardId : Option String) (activeBoardId : Option String) :
    Except String String :=
  let candidate : Option String := match argBoardId with
    | some s => if jsTrimString s ≠ "" then some (jsTrimString s) else none
    | none => none
  match candidate with
  | some c => .ok c
  | none =>
    match activeBoardId with
    | some b =>
      if b ≠ "" then .ok b
      else .error "No active board set. Use set_active_board or provide board_id parameter."
    | none => .error "No active board set. Use set_active_board or provide board_id parameter."

/-- The execute skeleton of a board-scoped tool: the board id is resolved
before the board is consulted, so a resolution error is returned no matter
what the board contains. -/
def executeFrameToMermaid (argBoardId activeBoardId : Option String)
    (fetch : String → List Item × List Connector)
    (direction : String) (frameTitle : Option String) (frameId : String) :
    Except String String :=
  match resolveBoardId argBoardId activeBoardId with
  | .error e => .error e
  | .ok b =>
    let fetched := fetch b
    .ok (frameToMermaid fetched.1 fetched.2 direction frameTitle frameId)

/-- The ordered pair rendered by an edge record. -/
def edgePair (e : Edge) : String × String :=
  (e.fromId, e.toId)

/-- One adjacent pair of the stacking inference, as the claim words it: an
edge from the upper to the lower item is added iff the horizontal overlap
is strictly positive, the vertical centre distance is at most three
quarters of the smaller height, and no explicit or previously inferred
edge exists for that exact ordered pair.  State: (known ordered pairs,
inferred pairs so far). -/
def specInferStep (st : List (String × String) × List (String × String))
    (ab : (String × BBox) × (String × BBox)) :
    List (String × String) × List (String × String) :=
  if 0 < min ab.1.2.right ab.2.2.right - max ab.1.2.left ab.2.2.left ∧
     |centerY ab.2.2 - centerY ab.1.2| ≤ min ab.1.2.height ab.2.2.height * (75 / 100) ∧
     (ab.1.1, ab.2.1) ∉ st.1 then
    (st.1 ++ [(ab.1.1, ab.2.1)], st.2 ++ [(ab.1.1, ab.2.1)])
  else st

/-- The inferred dependency edges as the claim describes them: group by
containment parent, sort each group by vertical centre, and process
adjacent pairs, starting from the explicit-connector pairs. -/
def specInferredEdges (items : List Item) (connectors : List Connector) :
    List (String × String) :=
  ((groupsOf items).foldl (fun st g =>
    (adjacentPairs (sortedGroup items g.2)).foldl specInferStep st)
    ((buildExplicit items connectors).1.map edgePair, [])).2

/-- The claim C5 region predicate, literally as stated: area at least three
times the median, or a colour among the top cumulative-area colours with
area at least half the median. -/
def specRegionB (items : List Item) (id : String) : Bool :=
  match bboxOf items id with
  | none => false
  | some box =>
    decide (medianArea items * 3 ≤ box.width * box.height) ||
    (match colorOfId items id with
     | some c =>
       (regionColors items).contains c &&
       decide (medianArea items * (5 / 10) ≤ box.width * box.height)
     | none => false)

/-- The condition under which the regionIds loop records an id (the else-if
collapses to a plain disjunction for membership purposes). -/
def regionCond (items : List Item) (x : String) : Prop :=
  ∃ box, bboxOf items x = some box ∧
    ((regionThreshold items ≠ 0 ∧ regionThreshold items ≤ box.width * box.height) ∨
     (∃ c, colorOfId items x = some c ∧ c ≠ "" ∧ (regionColors items).contains c = true ∧
       medianArea items ≠ 0 ∧ medianArea items * (5 / 10) ≤ box.width * box.height))

/-! ## Concrete example values used by closed instances -/

/-- Example container shape used by closed instances of the containment
claims. -/
def exParent : Item :=
  { id := "P", type := "shape", title := some "Parent", posX := some 0, posY := some 0,
    geomW := some 100, geomH := some 100, fillColor := some "blue" }

/-- Example contained shape. -/
def exChild : Item :=
  { id := "C", type := "shape", title := some "Child", posX := some 0, posY := some 0,
    geomW := some 20, geomH := some 20, fillColor := some "red" }

/-- The example item list for the containment claims. -/
def exItems : List Item :=
  [exParent, exChild]

/-- A degenerate zero-area shape (median area zero). -/
def zeroItem : Item :=
  { id := "Z", type := "shape", posX := some 0, posY := some 0,
    geomW := some 0, geomH := some 0, fillColor := some "c" }

/-- A nested frame contained in the example target frame. -/
def itemF1 : Item :=
  { id := "F1", type := "frame" }

/-- A shape living inside the nested frame. -/
def itemS1 : Item :=
  { id := "S1", type := "shape" }

/-- A board whose target-frame metadata fetch fails and whose target frame
has a nested child frame holding one shape. -/
def env9 : FrameEnv :=
  { rootMeta := Except.error ()
    boardFrames := []
    children := fun fid =>
      if fid = "root" then [itemF1]
      else if fid = "F1" then [itemS1]
      else [] }

/-- An item whose width is positive infinity (typeof number, not finite). -/
def itemC6inf : ItemJS :=
  { posX := JSVal.number (JSNum.num 0)
    posY := JSVal.number (JSNum.num 0)
    geomW := JSVal.number JSNum.posInf
    geomH := JSVal.number (JSNum.num 10) }

/-- An item with finite numeric fields. -/
def itemC6fin : ItemJS :=
  { posX := JSVal.number (JSNum.num 2)
    posY := JSVal.number (JSNum.num 4)
    geomW := JSVal.number (JSNum.num 6)
    geomH := JSVal.number (JSNum.num 10) }

/-- The connector of the claim C7 example: endStrokeCap erd_many, no
startStrokeCap. -/
def connC7 : Connector :=
  { id := "c1", startId := some "A", endId := some "B",
    endStrokeCap := some "erd_many" }

/-! ## General lemmas about the JS map model -/

theorem find?_map_overwrite {α : Type} (k : String) (v : α) :
    ∀ m : List (String × α), m.any (fun p => p.1 == k) = true →
      (m.map (fun p => if p.1 = k then (k, v) else p)).find? (fun p => p.1 == k) = some (k, v)
  | [], h => by simp at h
  | p :: rest, h => by
    by_cases hpk : p.1 = k
    · simp [List.find?, hpk]
    · have hne : (p.1 == k) = false := by simp [hpk]
      have hrest : rest.any (fun p => p.1 == k) = true := by
        simpa [hne] using h
      simp only [List.map_cons, hpk, if_false, List.find?, hne]
      exact find?_map_overwrite k v rest hrest

theorem find?_append_new {α : Type} (k : String) (v : α) :
    ∀ m : List (String × α), m.any (fun p => p.1 == k) = false →
      (m ++ [(k, v)]).find? (fun p => p.1 == k) = some (k, v)
  | [], _ => by simp [List.find?]
  | p :: rest, h => by
    have hne : (p.1 == k) = false := by
      by_contra hc
      have : (p.1 == k) = true := by
        cases hb : (p.1 == k) with
        | false => exact absurd hb hc
        | true => rfl
      simp [List.any_cons, this] at h
    have hrest : rest.any (fun p => p.1 == k) = false := by
      simpa [hne] using h
    simp only [List.cons_append, List.find?, hne]
    exact find?_append_new k v rest hrest

theorem mapGetA_mapSet_self {α : Type} (m : List (String × α)) (k : String) (v : α) :
    mapGetA (mapSet m k v) k = some v := by
  unfold mapSet mapGetA
  by_cases hany : m.any (fun p => p.1 == k) = true
  · rw [if_pos hany, find?_map_overwrite k v m hany]
    rfl
  · have hf : m.any (fun p => p.1 == k) = false := by
      cases hb : m.any (fun p => p.1 == k) with
      | false => rfl
      | true => exact absurd hb hany
    rw [if_neg (by simp [hf]), find?_append_new k v m hf]
    rfl

theorem find?_map_overwrite_ne {α : Type} (k k' : String) (v : α) (h : k' ≠ k) :
    ∀ m : List (String × α),
      (m.map (fun p => if p.1 = k then (k, v) else p)).find? (fun p => p.1 == k') =
        m.find? (fun p => p.1 == k')
  | [] => rfl
  | p :: rest => by
    by_cases hpk : p.1 = k
    · have hkk : ¬ k = k' := fun hx => h hx.symm
      have h1 : (k == k') = false := by simp [hkk]
      have h2 : (p.1 == k') = false := by simp [hpk, hkk]
      simp only [List.map_cons, hpk, if_true, List.find?, h1, h2]
      exact find?_map_overwrite_ne k k' v h rest
    · simp only [List.map_cons, hpk, if_false, List.find?]
      cases hb : (p.1 == k') with
      | true => rfl
      | false => exact find?_map_overwrite_ne k k' v h rest

theorem find?_append_new_ne {α : Type} (k k' : String) (v : α) (h : k' ≠ k) :
    ∀ m : List (String × α),
      (m ++ [(k, v)]).find? (fun p => p.1 == k') = m.find? (fun p => p.1 == k')
  | [] => by
    have hkk : ¬ k = k' := fun hx => h hx.symm
    have h1 : (k == k') = false := by simp [hkk]
    simp [List.find?, h1]
  | p :: rest => by
    simp only [List.cons_append, List.find?]
    cases hb : (p.1 == k') with
    | true => rfl
    | false => exact find?_append_new_ne k k' v h rest

theorem mapGetA_mapSet_ne {α : Type} (m : List (String × α)) (k k' : String) (v : α)
    (h : k' ≠ k) : mapGetA (mapSet m k v) k' = mapGetA m k' := by
  unfold mapSet mapGetA
  by_cases hany : m.any (fun p => p.1 == k) = true
  · rw [if_pos hany, find?_map_overwrite_ne k k' v h m]
  · have hf : m.any (fun p => p.1 == k) = false := by
      cases hb : m.any (fun p => p.1 == k) with
      | false => rfl
      | true => exact absurd hb hany
    rw [if_neg (by simp [hf]), find?_append_new_ne k k' v h m]


/-! ## Claim C7: ERD cardinality mapping -/

/-- Claim C7: each connector stroke-cap value maps to its cardinality token
(erd_one and erd_only_one to the exactly-one token, erd_zero_or_one to the
zero-or-one token, erd_many and erd_one_or_many to the one-or-many token,
erd_zero_or_many to the zero-or-many token), an absent or unrecognized cap
maps to the exactly-one token, and a connector with endStrokeCap erd_many
and no startStrokeCap renders as the relationship line
EntityA ||--\x7b... (one-or-many on the right). -/
theorem c7_capToCardinality (s : String)
    (h : s ∉ ["erd_one", "erd_only_one", "erd_zero_or_one", "erd_many",
              "erd_one_or_many", "erd_zero_or_many"]) :
    capToCardinality (some "erd_one") = "||" ∧
    capToCardinality (some "erd_only_one") = "||" ∧
    capToCardinality (some "erd_zero_or_one") = "o|" ∧
    capToCardinality (some "erd_many") = "|\x7b" ∧
    capToCardinality (some "erd_one_or_many") = "|\x7b" ∧
    capToCardinality (some "erd_zero_or_many") = "o\x7b" ∧
    capToCardinality none = "||" ∧
    capToCardinality (some s) = "||" ∧
    erdRelationshipLine "EntityA" "EntityB"
      (capToCardinality connC7.startStrokeCap)
      (capToCardinality connC7.endStrokeCap) none =
      "  EntityA ||--|\x7b EntityB" := by
  refine ⟨rfl, rfl, rfl, rfl, rfl, rfl, rfl, ?_, rfl⟩
  simp only [List.mem_cons, List.not_mem_nil, or_false, not_or] at h
  obtain ⟨h1, h2, h3, h4, h5, h6⟩ := h
  by_cases he : s = ""
  · simp [capToCardinality, he]
  · simp [capToCardinality, he, h1, h2, h3, h4, h5, h6]

/-- Closed instance of claim C7 at a concrete unrecognized cap value. -/
theorem c7_capToCardinality_witness :
    capToCardinality (some "erd_one") = "||" ∧
    capToCardinality (some "erd_only_one") = "||" ∧
    capToCardinality (some "erd_zero_or_one") = "o|" ∧
    capToCardinality (some "erd_many") = "|\x7b" ∧
    capToCardinality (some "erd_one_or_many") = "|\x7b" ∧
    capToCardinality (some "erd_zero_or_many") = "o\x7b" ∧
    capToCardinality none = "||" ∧
    capToCardinality (some "custom_cap") = "||" ∧
    erdRelationshipLine "EntityA" "EntityB"
      (capToCardinality connC7.startStrokeCap)
      (capToCardinality connC7.endStrokeCap) none =
      "  EntityA ||--|\x7b EntityB" :=
  c7_capToCardinality "custom_cap" (by decide)

/-! ## Claim C10: board-id resolution -/

/-- Claim C10 as stated is refuted: a whitespace-only board_id argument is a
non-empty string, yet it is not used (trimmed); the active board wins
instead. -/
theorem c10_resolveBoardId_counterexample :
    (" " : String) ≠ "" ∧
    jsTrimString " " = "" ∧
    resolveBoardId (some " ") (some "B") = Except.ok "B" ∧
    ("B" : String) ≠ jsTrimString " " := by
  refine ⟨by decide, by decide, rfl, by decide⟩

/-- Claim C10, amended: a board_id argument that trims to a non-empty string
is used (trimmed) in preference to the active board; when the argument is
absent or trims to the empty string and no truthy active board is set, the
exact no-active-board error is raised before the board data is consulted;
otherwise the active board is used. -/
theorem c10_resolveBoardId (s : String) (act arg : Option String)
    (fetch : String → List Item × List Connector) (direction : String)
    (frameTitle : Option String) (frameId : String) :
    (jsTrimString s ≠ "" → resolveBoardId (some s) act = Except.ok (jsTrimString s)) ∧
    ((arg = none ∨ ∃ s0, arg = some s0 ∧ jsTrimString s0 = "") → jsTruthy act = false →
      resolveBoardId arg act =
        Except.error "No active board set. Use set_active_board or provide board_id parameter." ∧
      executeFrameToMermaid arg act fetch direction frameTitle frameId =
        Except.error "No active board set. Use set_active_board or provide board_id parameter.") ∧
    (∀ b, (arg = none ∨ ∃ s0, arg = some s0 ∧ jsTrimString s0 = "") → act = some b → b ≠ "" →
      resolveBoardId arg act = Except.ok b) := by
  refine ⟨?_, ?_, ?_⟩
  · intro hs
    simp [resolveBoardId, hs]
  · intro harg hact
    have hres : resolveBoardId arg act =
        Except.error "No active board set. Use set_active_board or provide board_id parameter." := by
      rcases harg with h | ⟨s0, h, hs0⟩ <;> subst h
      · cases act with
        | none => rfl
        | some b =>
          have hb : b = "" := by
            by_contra hb
            simp [jsTruthy, hb] at hact
          simp [resolveBoardId, hb]
      · cases act with
        | none => simp [resolveBoardId, hs0]
        | some b =>
          have hb : b = "" := by
            by_contra hb
            simp [jsTruthy, hb] at hact
          simp [resolveBoardId, hs0, hb]
    refine ⟨hres, ?_⟩
    simp [executeFrameToMermaid, hres]
  · intro b harg hact hb
    subst hact
    rcases harg with h | ⟨s0, h, hs0⟩ <;> subst h
    · simp [resolveBoardId, hb]
    · simp [resolveBoardId, hs0, hb]

/-- Closed instance of the amended claim C10 at concrete arguments. -/
theorem c10_resolveBoardId_witness :
    resolveBoardId (some "  b1 ") (some "") = Except.ok (jsTrimString "  b1 ") ∧
    resolveBoardId none none =
      Except.error "No active board set. Use set_active_board or provide board_id parameter." ∧
    resolveBoardId none (some "B") = Except.ok "B" :=
  ⟨(c10_resolveBoardId "  b1 " (some "") none (fun _ => ([], [])) "LR" none "f").1 (by decide),
   ((c10_resolveBoardId "x" none none (fun _ => ([], [])) "LR" none "f").2.1
      (Or.inl rfl) (by decide)).1,
   (c10_resolveBoardId "x" (some "B") none (fun _ => ([], [])) "LR" none "f").2.2 "B"
      (Or.inl rfl) rfl (by decide)⟩

/-! ## Claim C6: bounding-box derivation -/

/-- Claim C6 as stated is refuted: an infinite width is not a finite number,
yet the bounding box is defined (the code only checks typeof). -/
theorem c6_computeItemBBox_counterexample :
    itemC6inf.geomW = JSVal.number JSNum.posInf ∧
    JSNum.isFinite JSNum.posInf = false ∧
    (computeItemBBoxJS itemC6inf).isSome = true ∧
    computeItemBBoxJS itemC6inf =
      some { left := JSNum.sub (JSNum.num 0) (JSNum.half JSNum.posInf),
             right := JSNum.add (JSNum.num 0) (JSNum.half JSNum.posInf),
             top := JSNum.sub (JSNum.num 0) (JSNum.half (JSNum.num 10)),
             bottom := JSNum.add (JSNum.num 0) (JSNum.half (JSNum.num 10)),
             width := JSNum.posInf, height := JSNum.num 10 } := by
  refine ⟨rfl, rfl, rfl, rfl⟩

/-- Claim C6, amended: the bounding box is undefined exactly when one of the
four resolved fields is missing or not of number type (NaN and the
infinities count as numbers), and when defined it is the centre-based box
left x minus half width, right x plus half width, top y minus half height,
bottom y plus half height. -/
theorem c6_computeItemBBox (it : ItemJS) :
    (computeItemBBoxJS it = none ↔
      (resolvedX it).isNumber = false ∨ (resolvedY it).isNumber = false ∨
      it.geomW.isNumber = false ∨ it.geomH.isNumber = false) ∧
    (∀ xv yv wv hv, resolvedX it = JSVal.number xv → resolvedY it = JSVal.number yv →
      it.geomW = JSVal.number wv → it.geomH = JSVal.number hv →
      computeItemBBoxJS it =
        some { left := xv.sub wv.half, right := xv.add wv.half,
               top := yv.sub hv.half, bottom := yv.add hv.half,
               width := wv, height := hv }) := by
  constructor
  · unfold computeItemBBoxJS
    cases hx : resolvedX it <;> cases hy : resolvedY it <;>
      cases hw : it.geomW <;> cases hh : it.geomH <;>
      simp [JSVal.isNumber]
  · intro xv yv wv hv h1 h2 h3 h4
    unfold computeItemBBoxJS
    rw [h1, h2, h3, h4]

/-- Closed instance of the amended claim C6 at a finite concrete item. -/
theorem c6_computeItemBBox_witness :
    computeItemBBoxJS itemC6fin =
      some { left := JSNum.sub (JSNum.num 2) (JSNum.half (JSNum.num 6)),
             right := JSNum.add (JSNum.num 2) (JSNum.half (JSNum.num 6)),
             top := JSNum.sub (JSNum.num 4) (JSNum.half (JSNum.num 10)),
             bottom := JSNum.add (JSNum.num 4) (JSNum.half (JSNum.num 10)),
             width := JSNum.num 6, height := JSNum.num 10 } :=
  (c6_computeItemBBox itemC6fin).2 _ _ _ _ rfl rfl rfl rfl

/-! ## Claim C9: degraded nested-frame discovery -/

/-- Claim C9 as stated is refuted: when the target-frame metadata fetch
fails, extraction still succeeds, but child frames reachable through
parent_item_id are still followed, so the result is not limited to the
explicitly requested frame's own items. -/
theorem c9_fetchFrameItems_counterexample :
    env9.rootMeta = Except.error () ∧
    env9.children "root" = [itemF1] ∧
    fetchFrameItems env9 none "root" 5 = [itemF1, itemS1] ∧
    itemS1 ∉ env9.children "root" := by
  refine ⟨rfl, by decide, by decide, by decide⟩

/-- Claim C9, amended: when fetching the root frame metadata fails (or its
geometry is unresolvable), extraction does not fail and degrades to the
breadth-first traversal seeded with the explicitly requested frame alone:
no frames are discovered through geometric containment, though child frames
linked via parent_item_id are still followed. -/
theorem c9_fetchFrameItems_degraded (env : FrameEnv) (limit : Option Nat)
    (t : String) (fuel : Nat)
    (h : env.rootMeta = Except.error () ∨
         ∃ meta, env.rootMeta = Except.ok meta ∧ computeFrameBBox meta = none) :
    fetchFrameItems env limit t fuel = fetchBFS env limit fuel [] [] [t] := by
  have hs : seedFrames env t = [t] := by
    rcases h with h | ⟨meta, hm, hb⟩
    · unfold seedFrames
      rw [h]
    · unfold seedFrames
      rw [hm]
      show (match computeFrameBBox meta with
            | none => [t]
            | some rootBBox =>
              (env.boardFrames.filter (fun fr => fr.id ≠ t)).foldl (fun seeds fr =>
                match computeFrameBBox fr with
                | none => seeds
                | some bbox =>
                  if rootBBox.left ≤ bbox.left ∧ bbox.right ≤ rootBBox.right ∧
                     rootBBox.top ≤ bbox.top ∧ bbox.bottom ≤ rootBBox.bottom then
                    setAdd seeds fr.id
                  else seeds) [t]) = [t]
      rw [hb]
  unfold fetchFrameItems
  rw [hs]

/-- Closed instance of the amended claim C9 on the example board. -/
theorem c9_fetchFrameItems_degraded_witness :
    fetchFrameItems env9 none "root" 5 = fetchBFS env9 none 5 [] [] ["root"] :=
  c9_fetchFrameItems_degraded env9 none "root" 5 (Or.inl rfl)

/-! ## Lemmas on whitespace normalisation (for the pk-candidate claim) -/

theorem dropWhile_idem {α : Type} (p : α → Bool) (l : List α) :
    (l.dropWhile p).dropWhile p = l.dropWhile p := by
  induction l with
  | nil => rfl
  | cons c rest ih =>
    by_cases h : p c
    · simp [List.dropWhile_cons, h, ih]
    · simp [List.dropWhile_cons, h]

theorem mem_collapseWs_bounded :
    ∀ n, ∀ l : List Char, l.length ≤ n → ∀ c ∈ collapseWs l, c = ' ' ∨ isJsWs c = false
  | _, [], _, c, hc => by simp [collapseWs] at hc
  | 0, ch :: rest, hlen, c, hc => by simp at hlen
  | n + 1, ch :: rest, hlen, c, hc => by
    have hrest : rest.length ≤ n := by
      simpa using hlen
    rw [collapseWs] at hc
    by_cases h : isJsWs ch
    · rw [if_pos h] at hc
      rcases List.mem_cons.mp hc with h1 | h1
      · exact Or.inl h1
      · exact mem_collapseWs_bounded n (rest.dropWhile isJsWs)
          (le_trans (List.dropWhile_sublist isJsWs).length_le hrest) c h1
    · rw [if_neg h] at hc
      rcases List.mem_cons.mp hc with h1 | h1
      · subst h1
        right
        cases hx : isJsWs c with
        | false => rfl
        | true => exact absurd hx h
      · exact mem_collapseWs_bounded n rest hrest c h1

theorem mem_collapseWs {l : List Char} {c : Char} (hc : c ∈ collapseWs l) :
    c = ' ' ∨ isJsWs c = false :=
  mem_collapseWs_bounded l.length l le_rfl c hc

theorem mem_jsTrimChars {l : List Char} {c : Char} (hc : c ∈ jsTrimChars l) : c ∈ l := by
  unfold jsTrimChars at hc
  have h1 := List.mem_reverse.mp hc
  have h2 := (List.dropWhile_sublist isJsWs).mem h1
  have h3 := List.mem_reverse.mp h2
  exact (List.dropWhile_sublist isJsWs).mem h3

theorem htmlToPlainChars_no_nl (s : List Char) :
    ∀ c ∈ htmlToPlainChars s, c ≠ '\n' ∧ c ≠ '\r' := by
  intro c hc
  have h1 : c ∈ collapseWs (stripTags (stripPClose (stripPOpen (stripBrs (decodeEntities s))))) :=
    mem_jsTrimChars hc
  rcases mem_collapseWs h1 with h2 | h2
  · subst h2
    exact ⟨by decide, by decide⟩
  · constructor
    · intro hne
      subst hne
      simp [isJsWs] at h2
    · intro hne
      subst hne
      simp [isJsWs] at h2

theorem splitNl_single :
    ∀ l : List Char, ('\n' ∉ l) → ('\r' ∉ l) → splitNl l = [l]
  | [], _, _ => rfl
  | c :: rest, hn, hr => by
    have hcn : c ≠ '\n' := fun e => hn (e ▸ List.mem_cons_self c rest)
    have hcr : c ≠ '\r' := fun e => hr (e ▸ List.mem_cons_self c rest)
    have hrestn : '\n' ∉ rest := fun e => hn (List.mem_cons_of_mem c e)
    have hrestr : '\r' ∉ rest := fun e => hr (List.mem_cons_of_mem c e)
    have ih := splitNl_single rest hrestn hrestr
    rw [splitNl, if_neg hcn, if_neg (fun h => hcr h.1), ih]

theorem jsTrimChars_idem (l : List Char) : jsTrimChars (jsTrimChars l) = jsTrimChars l := by
  unfold jsTrimChars
  have hAd : (l.dropWhile isJsWs).dropWhile isJsWs = l.dropWhile isJsWs := dropWhile_idem _ l
  have hBd : ((l.dropWhile isJsWs).reverse.dropWhile isJsWs).dropWhile isJsWs =
      (l.dropWhile isJsWs).reverse.dropWhile isJsWs := dropWhile_idem _ _
  have h1 : ((l.dropWhile isJsWs).reverse.dropWhile isJsWs).reverse.dropWhile isJsWs =
      ((l.dropWhile isJsWs).reverse.dropWhile isJsWs).reverse := by
    have hsplit : (l.dropWhile isJsWs).reverse.takeWhile isJsWs ++
        (l.dropWhile isJsWs).reverse.dropWhile isJsWs = (l.dropWhile isJsWs).reverse :=
      List.takeWhile_append_dropWhile _ _
    have hA2 : l.dropWhile isJsWs =
        ((l.dropWhile isJsWs).reverse.dropWhile isJsWs).reverse ++
        ((l.dropWhile isJsWs).reverse.takeWhile isJsWs).reverse := by
      have h := congrArg List.reverse hsplit
      rw [List.reverse_append, List.reverse_reverse] at h
      exact h.symm
    cases hBr : ((l.dropWhile isJsWs).reverse.dropWhile isJsWs).reverse with
    | nil => rfl
    | cons b bs =>
      have hhead : l.dropWhile isJsWs =
          b :: (bs ++ ((l.dropWhile isJsWs).reverse.takeWhile isJsWs).reverse) := by
        conv_lhs => rw [hA2, hBr]
        simp
      have hpb : isJsWs b = false := by
        cases hx : isJsWs b with
        | false => rfl
        | true =>
          exfalso
          rw [hhead, List.dropWhile_cons, hx] at hAd
          have hlen := congrArg List.length hAd
          have hle : ((bs ++ ((l.dropWhile isJsWs).reverse.takeWhile isJsWs).reverse).dropWhile
              isJsWs).length ≤
              (bs ++ ((l.dropWhile isJsWs).reverse.takeWhile isJsWs).reverse).length :=
            (List.dropWhile_sublist isJsWs).length_le
          simp only [if_true, List.length_cons] at hlen
          omega
      rw [List.dropWhile_cons, hpb]
      simp
  rw [h1, List.reverse_reverse, hBd]

theorem strMk_data (s : String) : String.mk s.data = s := by
  cases s with
  | mk l => rfl

theorem string_eq_empty_iff_data (s : String) : s = "" ↔ s.data = [] := by
  constructor
  · intro h
    rw [h]
  · intro h
    rw [← strMk_data s, h]

/-! ## Claim C8: primary-key candidate extraction (ERD) -/

theorem pkPlainText_data (it : Item) (hm : mergedText it ≠ "") :
    (pkPlainText it).data = htmlToPlainChars (mergedText it).data := by
  unfold pkPlainText htmlToPlain
  have ht : jsTruthy (some (mergedText it)) = true := by
    simp [jsTruthy, hm]
  rw [ht]
  simp

theorem pkPlainText_no_nl (it : Item) (c : Char) (hc : c ∈ (pkPlainText it).data) :
    c ≠ '\n' ∧ c ≠ '\r' := by
  by_cases hm : mergedText it = ""
  · exfalso
    unfold pkPlainText htmlToPlain at hc
    rw [hm] at hc
    simp [jsTruthy] at hc
  · rw [pkPlainText_data it hm] at hc
    exact htmlToPlainChars_no_nl _ c hc

theorem pkPlainText_trimmed (it : Item) (hm : mergedText it ≠ "") :
    jsTrimChars (pkPlainText it).data = (pkPlainText it).data := by
  rw [pkPlainText_data it hm]
  unfold htmlToPlainChars
  exact jsTrimChars_idem _

theorem linesOf_pkPlainText (it : Item) (hp : pkPlainText it ≠ "") :
    linesOf (pkPlainText it) = [(pkPlainText it).data] := by
  have hm : mergedText it ≠ "" := by
    intro h
    apply hp
    unfold pkPlainText htmlToPlain
    rw [h]
    simp [jsTruthy]
  have hd : (pkPlainText it).data ≠ [] := by
    intro h
    exact hp ((string_eq_empty_iff_data _).mpr h)
  unfold linesOf
  rw [splitNl_single (pkPlainText it).data
    (fun h => ((pkPlainText_no_nl it _ h).1 rfl))
    (fun h => ((pkPlainText_no_nl it _ h).2 rfl))]
  rw [List.map_singleton, pkPlainText_trimmed it hm]
  simp [List.filter, hd]

/-- Claim C8: for every item, the pk-candidate lines are exactly the lines
of the plain text of its title and content that contain pk or id as a
case-insensitive substring, the first line standing in when no line
matches.  The two descriptions (the word-boundary regex of the code and
the substring reading of the spec) agree extensionally because the
whitespace-normalised plain text never contains a newline, so there is at
most one line and the fallback closes the gap. -/
theorem c8_extractPkCandidates (it : Item) :
    extractPkCandidatesFromItem it = specPkCandidates it := by
  unfold extractPkCandidatesFromItem specPkCandidates
  dsimp only
  by_cases hp : pkPlainText it = ""
  · rw [if_pos hp]
    have hlines : linesOf (pkPlainText it) = [] := by
      rw [hp]
      rfl
    rw [hlines]
    simp
  · rw [if_neg hp, linesOf_pkPlainText it hp]
    set d := (pkPlainText it).data with hd
    by_cases hw : (hasWordCI ['p', 'k'] d || hasWordCI ['i', 'd'] d) = true
    · rw [show List.filter (fun l => hasWordCI ['p', 'k'] l || hasWordCI ['i', 'd'] l) [d] = [d] by
        simp [List.filter, hw]]
      by_cases hs : (containsCI ['p', 'k'] d || containsCI ['i', 'd'] d) = true
      · rw [show List.filter (fun l => containsCI ['p', 'k'] l || containsCI ['i', 'd'] l) [d] =
            [d] by simp [List.filter, hs]]
        simp
      · have h2 : (containsCI ['p', 'k'] d || containsCI ['i', 'd'] d) = false := by
          cases hx : (containsCI ['p', 'k'] d || containsCI ['i', 'd'] d) with
          | false => rfl
          | true => exact absurd hx hs
        rw [show List.filter (fun l => containsCI ['p', 'k'] l || containsCI ['i', 'd'] l) [d] =
            ([] : List (List Char)) by simp [List.filter, h2]]
        simp
    · have h1 : (hasWordCI ['p', 'k'] d || hasWordCI ['i', 'd'] d) = false := by
        cases hx : (hasWordCI ['p', 'k'] d || hasWordCI ['i', 'd'] d) with
        | false => rfl
        | true => exact absurd hx hw
      rw [show List.filter (fun l => hasWordCI ['p', 'k'] l || hasWordCI ['i', 'd'] l) [d] =
          ([] : List (List Char)) by simp [List.filter, h1]]
      by_cases hs : (containsCI ['p', 'k'] d || containsCI ['i', 'd'] d) = true
      · rw [show List.filter (fun l => containsCI ['p', 'k'] l || containsCI ['i', 'd'] l) [d] =
            [d] by simp [List.filter, hs]]
        simp
      · have h2 : (containsCI ['p', 'k'] d || containsCI ['i', 'd'] d) = false := by
          cases hx : (containsCI ['p', 'k'] d || containsCI ['i', 'd'] d) with
          | false => rfl
          | true => exact absurd hx hs
        rw [show List.filter (fun l => containsCI ['p', 'k'] l || containsCI ['i', 'd'] l) [d] =
            ([] : List (List Char)) by simp [List.filter, h2]]
        simp

/-! ## Lemmas on the best-parent scan (claims C1 and C2) -/

theorem scanParents_none_sound (items : List Item) (childId : String) :
    ∀ (ids : List String) (best : Option (String × ℚ)),
      scanParents items childId ids best = none →
      best = none ∧ ∀ q ∈ ids, acceptParent items childId q = false
  | [], best, h => by
    refine ⟨by simpa [scanParents] using h, ?_⟩
    intro q hq
    simp at hq
  | parentId :: rest, best, h => by
    simp only [scanParents] at h
    split at h
    · split at h
      · exact absurd (scanParents_none_sound items childId rest _ h).1 (by simp)
      · next hb =>
          cases hbest : best with
          | none =>
            rw [hbest] at hb
            simp at hb
          | some pa =>
            rw [hbest] at h
            exact absurd (scanParents_none_sound items childId rest _ h).1 (by simp)
    · next ha =>
        obtain ⟨h1, h2⟩ := scanParents_none_sound items childId rest best h
        refine ⟨h1, ?_⟩
        intro q hq
        rcases List.mem_cons.mp hq with rfl | hq'
        · cases hx : acceptParent items childId q with
          | false => rfl
          | true => exact absurd hx ha
        · exact h2 q hq'

theorem scanParents_some_src (items : List Item) (childId : String) :
    ∀ (ids : List String) (best : Option (String × ℚ)) (r : String × ℚ),
      scanParents items childId ids best = some r →
      best = some r ∨
        (r.1 ∈ ids ∧ acceptParent items childId r.1 = true ∧ r.2 = areaOfId items r.1)
  | [], best, r, h => Or.inl (by simpa [scanParents] using h)
  | parentId :: rest, best, r, h => by
    simp only [scanParents] at h
    split at h
    · next ha =>
        split at h
        · rcases scanParents_some_src items childId rest _ r h with h1 | h1
          · right
            have h2 := Option.some.inj h1
            refine ⟨?_, ?_, ?_⟩
            · rw [← h2]
              exact List.mem_cons_self _ _
            · rw [← h2]
              exact ha
            · rw [← h2]
          · exact Or.inr ⟨List.mem_cons_of_mem _ h1.1, h1.2.1, h1.2.2⟩
        · rcases scanParents_some_src items childId rest best r h with h1 | h1
          · exact Or.inl h1
          · exact Or.inr ⟨List.mem_cons_of_mem _ h1.1, h1.2.1, h1.2.2⟩
    · rcases scanParents_some_src items childId rest best r h with h1 | h1
      · exact Or.inl h1
      · exact Or.inr ⟨List.mem_cons_of_mem _ h1.1, h1.2.1, h1.2.2⟩

theorem scanParents_min (items : List Item) (childId : String) :
    ∀ (ids : List String) (best : Option (String × ℚ)) (r : String × ℚ),
      scanParents items childId ids best = some r →
      (∀ q ∈ ids, acceptParent items childId q = true → r.2 ≤ areaOfId items q) ∧
      (∀ pa, best = some pa → r.2 ≤ pa.2)
  | [], best, r, h => by
    refine ⟨?_, ?_⟩
    · intro q hq
      simp at hq
    · intro pa hpa
      have hbr : best = some r := by simpa [scanParents] using h
      rw [hpa] at hbr
      rw [Option.some.inj hbr]
  | parentId :: rest, best, r, h => by
    simp only [scanParents] at h
    split at h
    · next ha =>
        split at h
        · next hb =>
            have IH := scanParents_min items childId rest (some (parentId, areaOfId items parentId)) r h
            have hrp : r.2 ≤ areaOfId items parentId := IH.2 _ rfl
            refine ⟨?_, ?_⟩
            · intro q hq hacc
              rcases List.mem_cons.mp hq with rfl | hq'
              · exact hrp
              · exact IH.1 q hq' hacc
            · intro pa hpa
              rw [hpa] at hb
              have hlt : areaOfId items parentId < pa.2 := of_decide_eq_true hb
              exact le_of_lt (lt_of_le_of_lt hrp hlt)
        · next hb =>
            cases best with
            | none => simp at hb
            | some pa0 =>
              have IH := scanParents_min items childId rest (some pa0) r h
              have hge : pa0.2 ≤ areaOfId items parentId :=
                le_of_not_lt (fun hlt => hb (decide_eq_true hlt))
              have hr0 : r.2 ≤ pa0.2 := IH.2 pa0 rfl
              refine ⟨?_, IH.2⟩
              intro q hq hacc
              rcases List.mem_cons.mp hq with rfl | hq'
              · exact le_trans hr0 hge
              · exact IH.1 q hq' hacc
    · next ha =>
        have IH := scanParents_min items childId rest best r h
        refine ⟨?_, IH.2⟩
        intro q hq hacc
        rcases List.mem_cons.mp hq with rfl | hq'
        · exact absurd hacc ha
        · exact IH.1 q hq' hacc

theorem nodeIds_exists_item (items : List Item) (x : String) (hx : x ∈ nodeIds items) :
    ∃ it ∈ items, it.id = x := by
  unfold nodeIds nodesOf at hx
  rw [List.mem_map] at hx
  obtain ⟨n, hn, hid⟩ := hx
  rw [List.mem_map] at hn
  obtain ⟨p, hp, hpn⟩ := hn
  have hmem : p.2 ∈ nodeItems items := by
    rw [List.enum_eq_zip_range] at hp
    exact (List.of_mem_zip hp).2
  refine ⟨p.2, ?_, ?_⟩
  · exact (List.mem_filter.mp hmem).1
  · rw [← hid, ← hpn]

theorem containmentStep_parentOfM (items : List Item) (st : Containment) (childId : String) :
    (containmentStep items st childId).parentOfM =
      match bboxOf items childId with
      | none => st.parentOfM
      | some _ => mapSet st.parentOfM childId (parentValue items childId) := by
  unfold containmentStep parentValue
  cases hbo : bboxOf items childId with
  | none => rfl
  | some b =>
    cases hscan : scanParents items childId (nodeIds items) none with
    | none => rfl
    | some best =>
      show (if best.1 ≠ "" then
          ({ parentOfM := mapSet st.parentOfM childId (some best.1),
             childrenOfM :=
               mapSet st.childrenOfM best.1
                 ((match mapGetA st.childrenOfM best.1 with
                   | some a => a
                   | none => []) ++ [childId]) } : Containment)
        else { st with parentOfM := mapSet st.parentOfM childId none }).parentOfM =
        mapSet st.parentOfM childId (if best.1 ≠ "" then some best.1 else none)
      by_cases hbid : best.1 ≠ ""
      · rw [if_pos hbid, if_pos hbid]
      · rw [if_neg hbid, if_neg hbid]

theorem containment_foldl_parent (items : List Item) :
    ∀ (l : List String) (st : Containment) (id : String),
      mapGetA ((l.foldl (containmentStep items) st).parentOfM) id =
        if id ∈ l ∧ (bboxOf items id).isSome = true then some (parentValue items id)
        else mapGetA st.parentOfM id
  | [], st, id => by simp
  | q :: rest, st, id => by
    rw [List.foldl_cons, containment_foldl_parent items rest (containmentStep items st q) id]
    by_cases hmem : id ∈ rest ∧ (bboxOf items id).isSome = true
    · rw [if_pos hmem, if_pos ⟨List.mem_cons_of_mem _ hmem.1, hmem.2⟩]
    · rw [if_neg hmem]
      by_cases hq : id = q
      · subst hq
        by_cases hbb : (bboxOf items id).isSome = true
        · rw [if_pos ⟨List.mem_cons_self _ _, hbb⟩, containmentStep_parentOfM]
          obtain ⟨b, hb⟩ := Option.isSome_iff_exists.mp hbb
          rw [hb]
          exact mapGetA_mapSet_self _ _ _
        · rw [if_neg (fun hand => hbb hand.2), containmentStep_parentOfM]
          cases hbo : bboxOf items id with
          | none => rfl
          | some b =>
            rw [hbo] at hbb
            simp at hbb
      · rw [if_neg (fun hand => hmem ⟨(List.mem_cons.mp hand.1).resolve_left hq, hand.2⟩),
          containmentStep_parentOfM]
        cases hbo : bboxOf items q with
        | none => rfl
        | some b =>
          exact mapGetA_mapSet_ne _ _ _ _ hq

theorem assignedParent_none_of_cond (items : List Item) (id : String)
    (h : ¬(id ∈ nodeIds items ∧ (bboxOf items id).isSome = true)) :
    assignedParent items id = none := by
  unfold assignedParent containmentOf
  rw [containment_foldl_parent items (nodeIds items) ⟨[], []⟩ id, if_neg h]
  rfl

theorem assignedParent_eq (items : List Item) (id : String)
    (hmem : id ∈ nodeIds items) (hb : (bboxOf items id).isSome = true) :
    assignedParent items id = parentValue items id := by
  unfold assignedParent containmentOf
  rw [containment_foldl_parent items (nodeIds items) ⟨[], []⟩ id, if_pos ⟨hmem, hb⟩]
  cases hpv : parentValue items id with
  | none => rfl
  | some p => rfl

theorem assignedParent_some_inv (items : List Item) (id p : String)
    (h : assignedParent items id = some p) :
    ∃ best, scanParents items id (nodeIds items) none = some best ∧
      best.1 = p ∧ p ≠ "" ∧ (bboxOf items id).isSome = true ∧ id ∈ nodeIds items := by
  by_cases hcond : id ∈ nodeIds items ∧ (bboxOf items id).isSome = true
  · rw [assignedParent_eq items id hcond.1 hcond.2] at h
    unfold parentValue at h
    cases hscan : scanParents items id (nodeIds items) none with
    | none =>
      rw [hscan] at h
      simp at h
    | some best =>
      rw [hscan] at h
      have h' : (if best.1 ≠ "" then some best.1 else none) = some p := h
      by_cases hbid : best.1 ≠ ""
      · rw [if_pos hbid] at h'
        have hp := Option.some.inj h'
        exact ⟨best, rfl, hp, hp ▸ hbid, hcond.2, hcond.1⟩
      · rw [if_neg hbid] at h'
        simp at h'
  · rw [assignedParent_none_of_cond items id hcond] at h
    simp at h

/-- Claim C1: for a child with a resolvable bounding box (and non-empty
item ids), the assigned container is exactly an accepted candidate of
minimal bounding-box area, where a candidate passes precisely the colour,
scale, and overlap filters of acceptParent; a child with no passing
candidate gets no container, and conversely. -/
theorem c1_bestParent (items : List Item) (childId : String)
    (hids : ∀ it ∈ items, it.id ≠ "")
    (hb : (bboxOf items childId).isSome = true)
    (hmem : childId ∈ nodeIds items) :
    (∀ p, assignedParent items childId = some p →
        acceptParent items childId p = true ∧ p ∈ nodeIds items ∧
        ∀ q ∈ nodeIds items, acceptParent items childId q = true →
          areaOfId items p ≤ areaOfId items q) ∧
    (assignedParent items childId = none →
        ∀ q ∈ nodeIds items, acceptParent items childId q = false) := by
  constructor
  · intro p hp
    obtain ⟨best, hscan, hbp, hpne, _, _⟩ := assignedParent_some_inv items childId p hp
    rcases scanParents_some_src items childId (nodeIds items) none best hscan with h1 | h1
    · simp at h1
    · have hmin := scanParents_min items childId (nodeIds items) none best hscan
      subst hbp
      refine ⟨h1.2.1, h1.1, ?_⟩
      intro q hq hacc
      have hle := hmin.1 q hq hacc
      rw [← h1.2.2]
      exact hle
  · intro hnone q hq
    rw [assignedParent_eq items childId hmem hb] at hnone
    unfold parentValue at hnone
    cases hscan : scanParents items childId (nodeIds items) none with
    | none => exact (scanParents_none_sound items childId (nodeIds items) none hscan).2 q hq
    | some best =>
      rw [hscan] at hnone
      have h' : (if best.1 ≠ "" then some best.1 else none) = none := hnone
      by_cases hbid : best.1 ≠ ""
      · rw [if_pos hbid] at h'
        simp at h'
      · exfalso
        rcases scanParents_some_src items childId (nodeIds items) none best hscan with h1 | h1
        · simp at h1
        · obtain ⟨it, hit, hitid⟩ := nodeIds_exists_item items best.1 h1.1
          exact hbid (hitid ▸ hids it hit)

/-- Closed instance of claim C1 on the example containment pair. -/
theorem c1_bestParent_witness :
    (∀ p, assignedParent exItems "C" = some p →
        acceptParent exItems "C" p = true ∧ p ∈ nodeIds exItems ∧
        ∀ q ∈ nodeIds exItems, acceptParent exItems "C" q = true →
          areaOfId exItems p ≤ areaOfId exItems q) ∧
    (assignedParent exItems "C" = none →
        ∀ q ∈ nodeIds exItems, acceptParent exItems "C" q = false) :=
  c1_bestParent exItems "C" (by decide) (by decide) (by decide)

/-! ## Claim C2: acyclicity of the containment relation -/

theorem computeItemBBox_wf (it : Item) (b : BBox) (h : computeItemBBox it = some b) :
    b.right - b.left = b.width ∧ b.bottom - b.top = b.height := by
  simp only [computeItemBBox] at h
  split at h
  · have hb := (Option.some.inj h).symm
    subst hb
    constructor <;> ring
  · simp at h

theorem idToBBoxM_val (items : List Item) (id : String) (b : BBox)
    (h : mapGetA (idToBBoxM items) id = some b) : ∃ it, computeItemBBox it = some b := by
  unfold idToBBoxM at h
  suffices H : ∀ (l : List NodeRec) (m : List (String × BBox)),
      (∀ id2 b2, mapGetA m id2 = some b2 → ∃ it, computeItemBBox it = some b2) →
      ∀ id2 b2, mapGetA (l.foldl (fun m n =>
        match mapGetA (idToItemM items) n.id with
        | none => m
        | some it =>
          match computeItemBBox it with
          | some bb => mapSet m n.id bb
          | none => m) m) id2 = some b2 → ∃ it, computeItemBBox it = some b2 by
    refine H (nodesOf items) [] ?_ id b h
    intro id2 b2 hb2
    simp [mapGetA] at hb2
  intro l
  induction l with
  | nil => exact fun m hm => hm
  | cons n rest ih =>
    intro m hm id2 b2 h2
    rw [List.foldl_cons] at h2
    refine ih _ ?_ id2 b2 h2
    intro id3 b3 h3
    cases hit : mapGetA (idToItemM items) n.id with
    | none =>
      rw [hit] at h3
      exact hm id3 b3 h3
    | some it =>
      rw [hit] at h3
      have h4 : mapGetA (match computeItemBBox it with
          | some bb => mapSet m n.id bb
          | none => m) id3 = some b3 := h3
      cases hcb : computeItemBBox it with
      | none =>
        rw [hcb] at h4
        exact hm id3 b3 h4
      | some bb =>
        rw [hcb] at h4
        by_cases heq : id3 = n.id
        · subst heq
          rw [mapGetA_mapSet_self] at h4
          exact ⟨it, by rw [hcb]; exact congrArg some (Option.some.inj h4)⟩
        · rw [mapGetA_mapSet_ne _ _ _ _ heq] at h4
          exact hm id3 b3 h4

theorem bboxOf_wf (items : List Item) (id : String) (b : BBox)
    (h : bboxOf items id = some b) :
    b.right - b.left = b.width ∧ b.bottom - b.top = b.height := by
  unfold bboxOf at h
  obtain ⟨it, hit⟩ := idToBBoxM_val items id b h
  exact computeItemBBox_wf it b hit

theorem minScaleFor_gt_one (bb : Bool) : 1 < minScaleFor bb := by
  unfold minScaleFor
  cases bb <;> norm_num

theorem acceptParent_lt (items : List Item) (childId q : String)
    (h : acceptParent items childId q = true) :
    areaOfId items childId < areaOfId items q := by
  unfold acceptParent at h
  cases hcb : bboxOf items childId with
  | none =>
    rw [hcb] at h
    simp at h
  | some cb =>
    rw [hcb] at h
    cases hqb : bboxOf items q with
    | none =>
      rw [hqb] at h
      simp at h
    | some pb =>
      rw [hqb] at h
      simp only [Bool.and_eq_true, Bool.not_eq_true', Bool.or_eq_false_iff,
        decide_eq_true_eq, decide_eq_false_iff_not, not_lt, not_le] at h
      obtain ⟨hne, hcol, hdim, hinter, hfrac⟩ := h
      obtain ⟨hW, hH⟩ := hdim
      obtain ⟨hIW, hIH⟩ := hinter
      set X := (match colorOfId items q with
        | some pc => (regionColors items).contains pc
        | none => false : Bool) with hX
      have wfc := bboxOf_wf items childId cb hcb
      have wfp := bboxOf_wf items q pb hqb
      have hcw : 0 < cb.width := by
        have hle : min pb.right cb.right - max pb.left cb.left ≤ cb.right - cb.left :=
          sub_le_sub (min_le_right _ _) (le_max_right _ _)
        rw [wfc.1] at hle
        exact lt_of_lt_of_le hIW hle
      have hch : 0 < cb.height := by
        have hle : min pb.bottom cb.bottom - max pb.top cb.top ≤ cb.bottom - cb.top :=
          sub_le_sub (min_le_right _ _) (le_max_right _ _)
        rw [wfc.2] at hle
        exact lt_of_lt_of_le hIH hle
      have h1 : cb.width < pb.width := by
        refine lt_of_lt_of_le ?_ hW
        have hm1 := mul_lt_mul_of_pos_left (minScaleFor_gt_one X) hcw
        rw [mul_one] at hm1
        exact hm1
      have h2 : cb.height < pb.height := by
        refine lt_of_lt_of_le ?_ hH
        have hm2 := mul_lt_mul_of_pos_left (minScaleFor_gt_one X) hch
        rw [mul_one] at hm2
        exact hm2
      unfold areaOfId
      rw [hcb, hqb]
      exact mul_lt_mul'' h1 h2 (le_of_lt hcw) (le_of_lt hch)

theorem assignedParent_lt (items : List Item) (id p : String)
    (h : assignedParent items id = some p) :
    areaOfId items id < areaOfId items p := by
  obtain ⟨best, hscan, hb1, _, _, _⟩ := assignedParent_some_inv items id p h
  rcases scanParents_some_src items id (nodeIds items) none best hscan with h1 | h1
  · simp at h1
  · have hlt := acceptParent_lt items id best.1 h1.2.1
    rw [hb1] at hlt
    exact hlt

theorem parentIterate_lt (items : List Item) :
    ∀ (n : Nat) (id j : String),
      parentIterate items (n + 1) id = some j → areaOfId items id < areaOfId items j
  | 0, id, j, h => by
    simp only [parentIterate] at h
    cases hap : assignedParent items id with
    | none =>
      rw [hap] at h
      simp at h
    | some p =>
      rw [hap] at h
      simp only [parentIterate] at h
      have hj := Option.some.inj h
      subst hj
      exact assignedParent_lt items id p hap
  | n + 1, id, j, h => by
    simp only [parentIterate] at h
    cases hap : assignedParent items id with
    | none =>
      rw [hap] at h
      simp at h
    | some p =>
      rw [hap] at h
      exact lt_trans (assignedParent_lt items id p hap) (parentIterate_lt items n p j h)

/-- Claim C2: the containment relation is acyclic: following assigned
containers any positive number of steps from an item never returns to that
item (each child has one assigned parent at most, and every assigned
parent has strictly larger bounding-box area). -/
theorem c2_acyclic (items : List Item) (id : String) (n : Nat) :
    parentIterate items (n + 1) id ≠ some id := by
  intro h
  exact lt_irrefl _ (parentIterate_lt items n id id h)

/-- Closed instance of claim C2 on the example containment pair. -/
theorem c2_acyclic_witness : parentIterate exItems 1 "C" ≠ some "C" :=
  c2_acyclic exItems "C" 0

/-! ## Lemmas on the stable sort (claims C3 and C5) -/

theorem mem_insertLe {α : Type} (le : α → α → Bool) (x y : α) :
    ∀ l, x ∈ insertLe le y l ↔ x = y ∨ x ∈ l
  | [] => by simp [insertLe]
  | z :: zs => by
    unfold insertLe
    by_cases h : le y z = true
    · rw [if_pos h]
      simp [List.mem_cons]
    · rw [if_neg h]
      simp only [List.mem_cons, mem_insertLe le x y zs]
      tauto

theorem mem_sortLe {α : Type} (le : α → α → Bool) (x : α) :
    ∀ l, x ∈ sortLe le l ↔ x ∈ l
  | [] => Iff.rfl
  | z :: zs => by
    unfold sortLe
    rw [mem_insertLe le x z (sortLe le zs), mem_sortLe le x zs]
    simp [List.mem_cons]

theorem pairwise_insertLe {α : Type} (le : α → α → Bool)
    (htot : ∀ a b, le a b = true ∨ le b a = true)
    (htrans : ∀ a b c, le a b = true → le b c = true → le a c = true) (x : α) :
    ∀ l, l.Pairwise (fun a b => le a b = true) →
      (insertLe le x l).Pairwise (fun a b => le a b = true)
  | [], _ => by simp [insertLe]
  | z :: zs, hp => by
    unfold insertLe
    have hp' := List.pairwise_cons.mp hp
    by_cases h : le x z = true
    · rw [if_pos h]
      refine List.Pairwise.cons ?_ hp
      intro b hb
      rcases List.mem_cons.mp hb with rfl | hb'
      · exact h
      · exact htrans x z b h (hp'.1 b hb')
    · rw [if_neg h]
      have hzx : le z x = true := (htot x z).resolve_left h
      refine List.Pairwise.cons ?_ (pairwise_insertLe le htot htrans x zs hp'.2)
      intro b hb
      rcases (mem_insertLe le b x zs).mp hb with rfl | hb'
      · exact hzx
      · exact hp'.1 b hb'

theorem pairwise_sortLe {α : Type} (le : α → α → Bool)
    (htot : ∀ a b, le a b = true ∨ le b a = true)
    (htrans : ∀ a b c, le a b = true → le b c = true → le a c = true) :
    ∀ l, (sortLe le l).Pairwise (fun a b => le a b = true)
  | [] => List.Pairwise.nil
  | z :: zs =>
    pairwise_insertLe le htot htrans z (sortLe le zs) (pairwise_sortLe le htot htrans zs)

theorem mem_takeWhile_of_sorted {α : Type} (R : α → α → Prop) (p : α → Bool)
    (hmono : ∀ a b, R a b → p b = true → p a = true) :
    ∀ l : List α, l.Pairwise R → ∀ x, (x ∈ l.takeWhile p ↔ x ∈ l ∧ p x = true)
  | [], _, x => by simp
  | z :: zs, hp, x => by
    have hp' := List.pairwise_cons.mp hp
    by_cases h : p z = true
    · rw [List.takeWhile_cons, if_pos h]
      constructor
      · intro hx
        rcases List.mem_cons.mp hx with rfl | hx'
        · exact ⟨List.mem_cons_self _ _, h⟩
        · have := (mem_takeWhile_of_sorted R p hmono zs hp'.2 x).mp hx'
          exact ⟨List.mem_cons_of_mem _ this.1, this.2⟩
      · intro hx
        rcases List.mem_cons.mp hx.1 with rfl | hx'
        · exact List.mem_cons_self _ _
        · exact List.mem_cons_of_mem _
            ((mem_takeWhile_of_sorted R p hmono zs hp'.2 x).mpr ⟨hx', hx.2⟩)
    · rw [List.takeWhile_cons, if_neg h]
      constructor
      · intro hx
        simp at hx
      · intro hx
        exfalso
        rcases List.mem_cons.mp hx.1 with rfl | hx'
        · exact h hx.2
        · exact h (hmono z x (hp'.1 x hx') hx.2)

/-! ## Claim C5: region classification -/

theorem colorEntries_pairwise (items : List Item) :
    (colorEntries items).Pairwise
      (fun a b : String × (Nat × ℚ) => decide (b.2.2 ≤ a.2.2) = true) := by
  unfold colorEntries
  refine pairwise_sortLe _ ?_ ?_ (colorStatsM items)
  · intro a b
    rcases le_total b.2.2 a.2.2 with h | h
    · exact Or.inl (decide_eq_true h)
    · exact Or.inr (decide_eq_true h)
  · intro a b c h1 h2
    exact decide_eq_true (le_trans (of_decide_eq_true h2) (of_decide_eq_true h1))

theorem colorEntries_mem (items : List Item) (e : String × (Nat × ℚ)) :
    e ∈ colorEntries items ↔ e ∈ colorStatsM items := by
  unfold colorEntries
  exact mem_sortLe _ e (colorStatsM items)

theorem regionColors_mem (items : List Item) (c : String) :
    c ∈ regionColors items ↔
      ∃ e, e ∈ colorStatsM items ∧ e.1 = c ∧
        ∀ e0 ∈ colorStatsM items, e0.2.2 * (3 / 10) ≤ e.2.2 := by
  have hpw := colorEntries_pairwise items
  unfold regionColors
  cases hce : colorEntries items with
  | nil =>
    simp only [List.not_mem_nil, false_iff]
    rintro ⟨e, he, -, -⟩
    have : e ∈ colorEntries items := (colorEntries_mem items e).mpr he
    rw [hce] at this
    simp at this
  | cons e0 rest =>
    rw [hce] at hpw
    have hmem0 : e0 ∈ colorStatsM items := by
      rw [← colorEntries_mem items e0, hce]
      exact List.mem_cons_self _ _
    have hmax : ∀ e2 ∈ colorStatsM items, e2.2.2 ≤ e0.2.2 := by
      intro e2 he2
      have : e2 ∈ e0 :: rest := by
        rw [← hce]
        exact (colorEntries_mem items e2).mpr he2
      rcases List.mem_cons.mp this with rfl | h'
      · exact le_refl _
      · exact of_decide_eq_true ((List.pairwise_cons.mp hpw).1 e2 h')
    have htw := mem_takeWhile_of_sorted
      (fun a b : String × (Nat × ℚ) => decide (b.2.2 ≤ a.2.2) = true)
      (fun e => decide (e0.2.2 * (3 / 10) ≤ e.2.2))
      (fun a b hab hpb => decide_eq_true
        (le_trans (of_decide_eq_true hpb) (of_decide_eq_true hab)))
      (e0 :: rest) hpw
    constructor
    · intro hc
      rw [List.mem_map] at hc
      obtain ⟨e, he, hec⟩ := hc
      have he2 := (htw e).mp he
      refine ⟨e, ?_, hec, ?_⟩
      · rw [← colorEntries_mem items e, hce]
        exact he2.1
      · intro e2 he2'
        have h1 : e2.2.2 * (3 / 10) ≤ e0.2.2 * (3 / 10) :=
          mul_le_mul_of_nonneg_right (hmax e2 he2') (by norm_num)
        exact le_trans h1 (of_decide_eq_true he2.2)
    · rintro ⟨e, he, hec, hall⟩
      rw [List.mem_map]
      refine ⟨e, ?_, hec⟩
      refine (htw e).mpr ⟨?_, ?_⟩
      · rw [← hce]
        exact (colorEntries_mem items e).mpr he
      · exact decide_eq_true (hall e0 hmem0)

theorem mem_setAdd (s : List String) (y x : String) : x ∈ setAdd s y ↔ x ∈ s ∨ x = y := by
  unfold setAdd
  by_cases h : s.contains y = true
  · rw [if_pos h]
    constructor
    · exact Or.inl
    · rintro (hx | rfl)
      · exact hx
      · simpa using h
  · rw [if_neg h]
    simp [List.mem_append]

theorem regionIds_foldl_mem (items : List Item) :
    ∀ (l : List String) (acc : List String) (x : String),
      (x ∈ l.foldl (fun acc id =>
        match bboxOf items id with
        | none => acc
        | some box =>
          if regionThreshold items ≠ 0 ∧ regionThreshold items ≤ box.width * box.height then
            setAdd acc id
          else
            match colorOfId items id with
            | some c =>
              if c ≠ "" ∧ (regionColors items).contains c = true ∧
                 medianArea items ≠ 0 ∧
                 medianArea items * (5 / 10) ≤ box.width * box.height then
                setAdd acc id
              else acc
            | none => acc) acc ↔
      x ∈ acc ∨ (x ∈ l ∧ regionCond items x))
  | [], acc, x => by simp
  | id0 :: rest, acc, x => by
    rw [List.foldl_cons, regionIds_foldl_mem items rest _ x]
    have hstep : ∀ acc2 : List String,
        (x ∈ (match bboxOf items id0 with
          | none => acc2
          | some box =>
            if regionThreshold items ≠ 0 ∧ regionThreshold items ≤ box.width * box.height then
              setAdd acc2 id0
            else
              match colorOfId items id0 with
              | some c =>
                if c ≠ "" ∧ (regionColors items).contains c = true ∧
                   medianArea items ≠ 0 ∧
                   medianArea items * (5 / 10) ≤ box.width * box.height then
                  setAdd acc2 id0
                else acc2
              | none => acc2) ↔
          x ∈ acc2 ∨ (x = id0 ∧ regionCond items id0)) := by
      intro acc2
      cases hbo : bboxOf items id0 with
      | none =>
        show (x ∈ acc2) ↔ x ∈ acc2 ∨ (x = id0 ∧ regionCond items id0)
        simp only [iff_self_or]
        rintro ⟨rfl, box, hbox, -⟩
        rw [hbo] at hbox
        cases hbox
      | some box =>
        show (x ∈ (if regionThreshold items ≠ 0 ∧
              regionThreshold items ≤ box.width * box.height then
            setAdd acc2 id0
          else
            match colorOfId items id0 with
            | some c =>
              if c ≠ "" ∧ (regionColors items).contains c = true ∧
                 medianArea items ≠ 0 ∧
                 medianArea items * (5 / 10) ≤ box.width * box.height then
                setAdd acc2 id0
              else acc2
            | none => acc2)) ↔ x ∈ acc2 ∨ (x = id0 ∧ regionCond items id0)
        by_cases h1 : regionThreshold items ≠ 0 ∧
            regionThreshold items ≤ box.width * box.height
        · rw [if_pos h1, mem_setAdd]
          constructor
          · rintro (hx | rfl)
            · exact Or.inl hx
            · exact Or.inr ⟨rfl, box, hbo, Or.inl h1⟩
          · rintro (hx | ⟨rfl, -⟩)
            · exact Or.inl hx
            · exact Or.inr rfl
        · rw [if_neg h1]
          cases hco : colorOfId items id0 with
          | none =>
            show (x ∈ acc2) ↔ x ∈ acc2 ∨ (x = id0 ∧ regionCond items id0)
            simp only [iff_self_or]
            rintro ⟨rfl, box2, hbox2, hdisj⟩
            rw [hbo] at hbox2
            cases hbox2
            rcases hdisj with h | ⟨c, hc, -⟩
            · exact (h1 h).elim
            · rw [hco] at hc
              cases hc
          | some c =>
            show (x ∈ (if c ≠ "" ∧ (regionColors items).contains c = true ∧
                  medianArea items ≠ 0 ∧
                  medianArea items * (5 / 10) ≤ box.width * box.height then
                setAdd acc2 id0
              else acc2)) ↔ x ∈ acc2 ∨ (x = id0 ∧ regionCond items id0)
            by_cases h2 : c ≠ "" ∧ (regionColors items).contains c = true ∧
                medianArea items ≠ 0 ∧
                medianArea items * (5 / 10) ≤ box.width * box.height
            · rw [if_pos h2, mem_setAdd]
              constructor
              · rintro (hx | rfl)
                · exact Or.inl hx
                · exact Or.inr ⟨rfl, box, hbo, Or.inr ⟨c, hco, h2⟩⟩
              · rintro (hx | ⟨rfl, -⟩)
                · exact Or.inl hx
                · exact Or.inr rfl
            · rw [if_neg h2]
              simp only [iff_self_or]
              rintro ⟨rfl, box2, hbox2, hdisj⟩
              rw [hbo] at hbox2
              cases hbox2
              rcases hdisj with h | ⟨c2, hc2, hrest⟩
              · exact (h1 h).elim
              · rw [hco] at hc2
                cases hc2
                exact (h2 hrest).elim
    rw [hstep acc]
    constructor
    · rintro ((hx | ⟨rfl, hcond⟩) | ⟨hrest, hcond⟩)
      · exact Or.inl hx
      · exact Or.inr ⟨List.mem_cons_self _ _, hcond⟩
      · exact Or.inr ⟨List.mem_cons_of_mem _ hrest, hcond⟩
    · rintro (hx | ⟨hmem, hcond⟩)
      · exact Or.inl (Or.inl hx)
      · rcases List.mem_cons.mp hmem with rfl | hmem'
        · exact Or.inl (Or.inr ⟨rfl, hcond⟩)
        · exact Or.inr ⟨hmem', hcond⟩

/-- Claim C5, amended: an id is classified as a region exactly when it is a
node with a resolvable box and either the median area is positive and its
area is at least three times the median, or its colour has cumulative area
at least 30 percent of every colour's cumulative area (in particular of
the largest), the median is non-zero, and its area is at least half the
median.  The median-zero guards are what the original claim lacks. -/
theorem c5_regionIds (items : List Item) (id : String) :
    id ∈ regionIds items ↔
      id ∈ nodeIds items ∧
      ∃ box, bboxOf items id = some box ∧
        ((0 < medianArea items ∧ medianArea items * 3 ≤ box.width * box.height) ∨
         (∃ c, colorOfId items id = some c ∧ c ≠ "" ∧
           (∃ e, e ∈ colorStatsM items ∧ e.1 = c ∧
             ∀ e0 ∈ colorStatsM items, e0.2.2 * (3 / 10) ≤ e.2.2) ∧
           medianArea items ≠ 0 ∧
           medianArea items * (5 / 10) ≤ box.width * box.height)) := by
  have hthr : ∀ a : ℚ,
      (regionThreshold items ≠ 0 ∧ regionThreshold items ≤ a) ↔
      (0 < medianArea items ∧ medianArea items * 3 ≤ a) := by
    intro a
    unfold regionThreshold
    by_cases hm : medianArea items > 0
    · rw [if_pos hm]
      constructor
      · rintro ⟨-, h2⟩
        exact ⟨hm, h2⟩
      · rintro ⟨-, h2⟩
        refine ⟨?_, h2⟩
        have : (0 : ℚ) < medianArea items * 3 := by linarith
        exact ne_of_gt this
    · rw [if_neg hm]
      constructor
      · rintro ⟨h, -⟩
        exact absurd rfl h
      · rintro ⟨h, -⟩
        exact absurd h hm
  unfold regionIds
  rw [regionIds_foldl_mem items (nodeIds items) [] id]
  simp only [List.not_mem_nil, false_or]
  unfold regionCond
  constructor
  · rintro ⟨hmem, box, hbox, hdisj⟩
    refine ⟨hmem, box, hbox, ?_⟩
    rcases hdisj with h | ⟨c, hc, hne, hcont, hmed, harea⟩
    · exact Or.inl ((hthr _).mp h)
    · refine Or.inr ⟨c, hc, hne, ?_, hmed, harea⟩
      exact (regionColors_mem items c).mp (by simpa using hcont)
  · rintro ⟨hmem, box, hbox, hdisj⟩
    refine ⟨hmem, box, hbox, ?_⟩
    rcases hdisj with h | ⟨c, hc, hne, hchar, hmed, harea⟩
    · exact Or.inl ((hthr _).mpr h)
    · refine Or.inr ⟨c, hc, hne, ?_, hmed, harea⟩
      have : c ∈ regionColors items := (regionColors_mem items c).mpr hchar
      simpa using this

set_option maxHeartbeats 4000000 in
/-- Claim C5 as stated is refuted: for a single zero-area shape the median
area is zero, so the claim formula (area at least three times the median)
classifies it as a region, while the code classifies nothing (the zero
threshold is falsy and the colour branch requires a non-zero median). -/
theorem c5_regionIds_counterexample :
    specRegionB [zeroItem] "Z" = true ∧ regionIds [zeroItem] = [] := by
  constructor
  · norm_num [specRegionB, regionIds, regionThreshold, regionColors, colorEntries, colorStatsM,
      colorOfId, getItemColor, medianArea, areasOf, nodeIds, nodesOf, nodeItems, nodeTypes,
      zeroItem, bboxOf, idToBBoxM, idToItemM, mapSet, mapGetA, computeItemBBox, sortLe, insertLe,
      labelOf, plainSnippet, htmlToPlain, jsStrOr, jsTruthy, htmlToPlainChars, jsTrimChars,
      collapseWs, stripTags, stripPClose, stripPOpen, stripBrs, decodeEntities, isJsWs, setAdd,
      List.filterMap, List.foldl, List.enum, List.enumFrom, List.filter, List.find?, List.map,
      List.takeWhile, List.contains]
  · norm_num [specRegionB, regionIds, regionThreshold, regionColors, colorEntries, colorStatsM,
      colorOfId, getItemColor, medianArea, areasOf, nodeIds, nodesOf, nodeItems, nodeTypes,
      zeroItem, bboxOf, idToBBoxM, idToItemM, mapSet, mapGetA, computeItemBBox, sortLe, insertLe,
      labelOf, plainSnippet, htmlToPlain, jsStrOr, jsTruthy, htmlToPlainChars, jsTrimChars,
      collapseWs, stripTags, stripPClose, stripPOpen, stripBrs, decodeEntities, isJsWs, setAdd,
      List.filterMap, List.foldl, List.enum, List.enumFrom, List.filter, List.find?, List.map,
      List.takeWhile, List.contains]
    split <;> rfl

/-! ## Claim C3: supporting lemmas -/

theorem mem_mapSet {α : Type} (m : List (String × α)) (k : String) (v : α)
    (x : String × α) (hx : x ∈ mapSet m k v) : x = (k, v) ∨ x ∈ m := by
  unfold mapSet at hx
  by_cases h : m.any (fun p => p.1 == k) = true
  · rw [if_pos h] at hx
    rw [List.mem_map] at hx
    obtain ⟨p, hp, hpx⟩ := hx
    by_cases hpk : p.1 = k
    · rw [if_pos hpk] at hpx
      exact Or.inl hpx.symm
    · rw [if_neg hpk] at hpx
      exact Or.inr (hpx ▸ hp)
  · rw [if_neg h] at hx
    rw [List.mem_append] at hx
    rcases hx with hx | hx
    · exact Or.inr hx
    · exact Or.inl (by simpa using hx)

theorem mapGetA_mem {α : Type} (m : List (String × α)) (k : String) (v : α)
    (h : mapGetA m k = some v) : (k, v) ∈ m := by
  unfold mapGetA at h
  cases hf : m.find? (fun p => p.1 == k) with
  | none =>
    rw [hf] at h
    cases h
  | some p =>
    rw [hf] at h
    have hp1 := List.find?_some hf
    have hpm : p ∈ m := List.mem_of_find?_eq_some hf
    have hv : p.2 = v := Option.some.inj h
    have hk : p.1 = k := by simpa using hp1
    have : p = (k, v) := by
      cases p
      simp only at hk hv
      rw [hk, hv]
    rw [← this]
    exact hpm

theorem length_insertLe {α : Type} (le : α → α → Bool) (x : α) :
    ∀ l, (insertLe le x l).length = l.length + 1
  | [] => rfl
  | z :: zs => by
    unfold insertLe
    by_cases h : le x z = true
    · rw [if_pos h]
      simp
    · rw [if_neg h]
      simp [length_insertLe le x zs]

theorem length_sortLe {α : Type} (le : α → α → Bool) :
    ∀ l, (sortLe le l).length = l.length
  | [] => rfl
  | z :: zs => by
    unfold sortLe
    rw [length_insertLe, length_sortLe le zs]
    rfl

theorem adjacentPairs_nil_of_short {α : Type} (l : List α) (h : l.length ≤ 1) :
    adjacentPairs l = [] := by
  match l with
  | [] => rfl
  | [x] => rfl
  | x :: y :: rest => simp at h

theorem pairwise_zip_tail {α : Type} (R : α → α → Prop) :
    ∀ l : List α, l.Pairwise R → ∀ p ∈ l.zip l.tail, R p.1 p.2
  | [], _, p, hp => by simp at hp
  | [x], _, p, hp => by simp at hp
  | x :: y :: rest, hpw, p, hp => by
    have h1 := List.pairwise_cons.mp hpw
    rcases List.mem_cons.mp hp with rfl | hp'
    · exact h1.1 y (List.mem_cons_self _ _)
    · exact pairwise_zip_tail R (y :: rest) h1.2 p hp'

theorem mapGetA_foldl_alias_mem (items : List Item) :
    ∀ (l : List NodeRec) (m0 : List (String × String)) (k : String) (v : String),
      mapGetA (l.foldl (fun m n => mapSet m n.id n.aliasName) m0) k = some v →
      (∃ n ∈ l, n.id = k) ∨ mapGetA m0 k = some v
  | [], m0, k, v, h => Or.inr h
  | n :: rest, m0, k, v, h => by
    rw [List.foldl_cons] at h
    rcases mapGetA_foldl_alias_mem items rest _ k v h with h1 | h1
    · obtain ⟨n2, hn2, hid⟩ := h1
      exact Or.inl ⟨n2, List.mem_cons_of_mem _ hn2, hid⟩
    · by_cases hk : k = n.id
      · exact Or.inl ⟨n, List.mem_cons_self _ _, hk.symm⟩
      · rw [mapGetA_mapSet_ne _ _ _ _ hk] at h1
        exact Or.inr h1

theorem idToAliasM_some_mem (items : List Item) (k v : String)
    (h : mapGetA (idToAliasM items) k = some v) : k ∈ nodeIds items := by
  unfold idToAliasM at h
  rcases mapGetA_foldl_alias_mem items (nodesOf items) [] k v h with h1 | h1
  · obtain ⟨n, hn, hid⟩ := h1
    unfold nodeIds
    rw [List.mem_map]
    exact ⟨n, hn, hid⟩
  · simp [mapGetA] at h1

theorem mapGetA_mapSet_isSome {α : Type} (m : List (String × α)) (k k2 : String) (v : α)
    (h : (mapGetA m k).isSome = true) : (mapGetA (mapSet m k2 v) k).isSome = true := by
  by_cases hk : k = k2
  · subst hk
    rw [mapGetA_mapSet_self]
    rfl
  · rw [mapGetA_mapSet_ne _ _ _ _ hk]
    exact h

theorem alias_foldl_total (items : List Item) :
    ∀ (l : List NodeRec) (m0 : List (String × String)),
      (∀ k v, mapGetA m0 k = some v → v ≠ "") →
      (∀ n ∈ l, n.aliasName ≠ "") →
      ∀ k, ((∃ n ∈ l, n.id = k) ∨ (mapGetA m0 k).isSome = true) →
        ∃ v, mapGetA (l.foldl (fun m n => mapSet m n.id n.aliasName) m0) k = some v ∧ v ≠ ""
  | [], m0, hm0, _, k, hk => by
    rcases hk with ⟨n, hn, _⟩ | hk
    · simp at hn
    · obtain ⟨v, hv⟩ := Option.isSome_iff_exists.mp hk
      exact ⟨v, hv, hm0 k v hv⟩
  | n :: rest, m0, hm0, hl, k, hk => by
    rw [List.foldl_cons]
    have hm1 : ∀ k2 v2, mapGetA (mapSet m0 n.id n.aliasName) k2 = some v2 → v2 ≠ "" := by
      intro k2 v2 h2
      by_cases hkn : k2 = n.id
      · subst hkn
        rw [mapGetA_mapSet_self] at h2
        rw [← Option.some.inj h2]
        exact hl n (List.mem_cons_self _ _)
      · rw [mapGetA_mapSet_ne _ _ _ _ hkn] at h2
        exact hm0 k2 v2 h2
    have hl' : ∀ n2 ∈ rest, n2.aliasName ≠ "" := fun n2 hn2 => hl n2 (List.mem_cons_of_mem _ hn2)
    refine alias_foldl_total items rest _ hm1 hl' k ?_
    rcases hk with ⟨n2, hn2, hid⟩ | hk
    · rcases List.mem_cons.mp hn2 with rfl | hn2'
      · right
        rw [← hid, mapGetA_mapSet_self]
        rfl
      · exact Or.inl ⟨n2, hn2', hid⟩
    · exact Or.inr (mapGetA_mapSet_isSome m0 k n.id n.aliasName hk)

theorem nodesOf_alias_ne (items : List Item) (n : NodeRec) (hn : n ∈ nodesOf items) :
    n.aliasName ≠ "" := by
  unfold nodesOf at hn
  rw [List.mem_map] at hn
  obtain ⟨p, -, hpn⟩ := hn
  rw [← hpn]
  intro h
  have hlen := congrArg String.length h
  rw [String.length_append] at hlen
  have h1 : ("n" : String).length = 1 := rfl
  rw [h1] at hlen
  simp at hlen

theorem idToAliasM_total (items : List Item) (k : String) (hk : k ∈ nodeIds items) :
    ∃ v, mapGetA (idToAliasM items) k = some v ∧ v ≠ "" := by
  unfold idToAliasM
  refine alias_foldl_total items (nodesOf items) [] ?_ ?_ k ?_
  · intro k2 v2 h2
    simp [mapGetA] at h2
  · exact fun n hn => nodesOf_alias_ne items n hn
  · left
    unfold nodeIds at hk
    rw [List.mem_map] at hk
    obtain ⟨n, hn, hid⟩ := hk
    exact ⟨n, hn, hid⟩

theorem groupsOf_foldl_vals (items : List Item) (S : List String) :
    ∀ (l : List String) (m0 : List (String × List String)),
      (∀ id ∈ l, id ∈ S) →
      (∀ g ∈ m0, ∀ id ∈ g.2, id ∈ S) →
      ∀ g ∈ l.foldl (fun m id =>
          mapSet m (groupKeyFor items id)
            ((match mapGetA m (groupKeyFor items id) with
              | some a => a
              | none => []) ++ [id])) m0,
        ∀ id ∈ g.2, id ∈ S
  | [], m0, _, hm0, g, hg => hm0 g hg
  | id0 :: rest, m0, hl, hm0, g, hg => by
    rw [List.foldl_cons] at hg
    have hid0 : id0 ∈ S := hl id0 (List.mem_cons_self _ _)
    have hl' : ∀ id ∈ rest, id ∈ S := fun id hid => hl id (List.mem_cons_of_mem _ hid)
    refine groupsOf_foldl_vals items S rest _ hl' ?_ g hg
    intro g2 hg2 id hid
    rcases mem_mapSet _ _ _ g2 hg2 with h1 | h1
    · subst h1
      simp only at hid
      rw [List.mem_append] at hid
      rcases hid with hid | hid
      · cases harr : mapGetA m0 (groupKeyFor items id0) with
        | none =>
          rw [harr] at hid
          simp at hid
        | some arr =>
          rw [harr] at hid
          exact hm0 _ (mapGetA_mem _ _ _ harr) id hid
      · rw [List.mem_singleton.mp hid]
        exact hid0
    · exact hm0 g2 h1 id hid

theorem groupsOf_vals (items : List Item) (g : String × List String)
    (hg : g ∈ groupsOf items) (id : String) (hid : id ∈ g.2) : id ∈ nodeIds items := by
  unfold groupsOf at hg
  refine groupsOf_foldl_vals items (nodeIds items) (nodeIds items) [] (fun i hi => hi)
    ?_ g hg id hid
  intro g2 hg2
  exact absurd hg2 (List.not_mem_nil g2)

theorem sortedGroup_mem (items : List Item) (ids : List String) (p : String × BBox)
    (hp : p ∈ sortedGroup items ids) : p.1 ∈ ids := by
  unfold sortedGroup at hp
  rw [mem_sortLe] at hp
  rw [List.mem_filterMap] at hp
  obtain ⟨id, hid, hmap⟩ := hp
  cases hb : bboxOf items id with
  | none =>
    rw [hb] at hmap
    cases hmap
  | some b =>
    rw [hb] at hmap
    have hmap2 : (id, b) = p := by simpa using hmap
    rw [← hmap2]
    exact hid

theorem sortedGroup_pairwise (items : List Item) (ids : List String) :
    (sortedGroup items ids).Pairwise
      (fun a b : String × BBox => decide (centerY a.2 ≤ centerY b.2) = true) := by
  unfold sortedGroup
  refine pairwise_sortLe _ ?_ ?_ _
  · intro a b
    rcases le_total (centerY a.2) (centerY b.2) with h | h
    · exact Or.inl (decide_eq_true h)
    · exact Or.inr (decide_eq_true h)
  · intro a b c h1 h2
    exact decide_eq_true (le_trans (of_decide_eq_true h1) (of_decide_eq_true h2))

theorem str_contains_iff (s : List String) (x : String) : s.contains x = true ↔ x ∈ s := by
  constructor
  · intro h
    simpa using h
  · intro h
    simpa using h

theorem explicitStep_cases (items : List Item) (st : List Edge × List String) (c : Connector) :
    explicitStep items st c = st ∨
    ∃ (s t : String) (e0 : Edge),
      e0.fromId = s ∧ e0.toId = t ∧ s ∈ nodeIds items ∧ t ∈ nodeIds items ∧
      explicitStep items st c = (st.1 ++ [e0], setAdd st.2 (pairKey s t)) := by
  unfold explicitStep
  split
  · next s t hs ht =>
    split
    · next hne =>
      split
      · next fa ta hfa hta =>
        split
        · next hne2 =>
          refine Or.inr ⟨s, t, _, rfl, rfl, ?_, ?_, rfl⟩
          · exact idToAliasM_some_mem items s fa hfa
          · exact idToAliasM_some_mem items t ta hta
        · exact Or.inl rfl
      · exact Or.inl rfl
    · exact Or.inl rfl
  · exact Or.inl rfl

theorem explicit_foldl_inv (items : List Item)
    (hinj : ∀ a ∈ nodeIds items, ∀ b ∈ nodeIds items, ∀ c ∈ nodeIds items,
      ∀ d ∈ nodeIds items, pairKey a b = pairKey c d → a = c ∧ b = d) :
    ∀ (cs : List Connector) (st : List Edge × List String),
      (∀ e ∈ st.1, e.fromId ∈ nodeIds items ∧ e.toId ∈ nodeIds items) →
      (∀ a ∈ nodeIds items, ∀ b ∈ nodeIds items,
        (pairKey a b ∈ st.2 ↔ (a, b) ∈ st.1.map edgePair)) →
      (∀ e ∈ (cs.foldl (explicitStep items) st).1,
          e.fromId ∈ nodeIds items ∧ e.toId ∈ nodeIds items) ∧
      (∀ a ∈ nodeIds items, ∀ b ∈ nodeIds items,
        (pairKey a b ∈ (cs.foldl (explicitStep items) st).2 ↔
         (a, b) ∈ (cs.foldl (explicitStep items) st).1.map edgePair))
  | [], st, h1, h2 => ⟨h1, h2⟩
  | c :: rest, st, h1, h2 => by
    rw [List.foldl_cons]
    refine explicit_foldl_inv items hinj rest (explicitStep items st c) ?_ ?_
    · rcases explicitStep_cases items st c with hst | ⟨s, t, e0, hfrom, hto, hsmem, htmem, hst⟩
      · rw [hst]
        exact h1
      · have h1c : (explicitStep items st c).1 = st.1 ++ [e0] := by rw [hst]
        rw [h1c]
        intro e he
        rcases List.mem_append.mp he with he | he
        · exact h1 e he
        · have he0 : e = e0 := List.mem_singleton.mp he
          rw [he0, hfrom, hto]
          exact ⟨hsmem, htmem⟩
    · rcases explicitStep_cases items st c with hst | ⟨s, t, e0, hfrom, hto, hsmem, htmem, hst⟩
      · rw [hst]
        exact h2
      · have h1c : (explicitStep items st c).1 = st.1 ++ [e0] := by rw [hst]
        have h2c : (explicitStep items st c).2 = setAdd st.2 (pairKey s t) := by rw [hst]
        rw [h1c, h2c]
        intro a hA b hB
        have hep : edgePair e0 = (s, t) := by
          unfold edgePair
          rw [hfrom, hto]
        rw [mem_setAdd, List.map_append, List.mem_append]
        constructor
        · rintro (hk | hk)
          · exact Or.inl ((h2 a hA b hB).mp hk)
          · obtain ⟨hac, hbd⟩ := hinj a hA b hB s hsmem t htmem hk
            right
            rw [hac, hbd, ← hep]
            exact List.mem_map_of_mem edgePair (List.mem_singleton.mpr rfl)
        · rintro (hk | hk)
          · exact Or.inl ((h2 a hA b hB).mpr hk)
          · right
            have hk2 : (a, b) = edgePair e0 := by
              rcases List.mem_map.mp hk with ⟨x, hx, hxe⟩
              rw [← hxe, List.mem_singleton.mp hx]
            rw [hep] at hk2
            have ha2 : a = s := congrArg Prod.fst hk2
            have hb2 : b = t := congrArg Prod.snd hk2
            rw [ha2, hb2]

theorem inferStep_rel (items : List Item)
    (hinj : ∀ a ∈ nodeIds items, ∀ b ∈ nodeIds items, ∀ c ∈ nodeIds items,
      ∀ d ∈ nodeIds items, pairKey a b = pairKey c d → a = c ∧ b = d)
    (E0 : List (String × String))
    (st : List Edge × List String)
    (sst : List (String × String) × List (String × String))
    (ab : (String × BBox) × (String × BBox))
    (ha : ab.1.1 ∈ nodeIds items) (hb : ab.2.1 ∈ nodeIds items)
    (hsort : centerY ab.1.2 ≤ centerY ab.2.2)
    (h1 : st.1.map edgePair = E0 ++ sst.2)
    (h2 : ∀ a ∈ nodeIds items, ∀ b ∈ nodeIds items,
      (pairKey a b ∈ st.2 ↔ (a, b) ∈ sst.1)) :
    (inferStep items st ab).1.map edgePair = E0 ++ (specInferStep sst ab).2 ∧
    (∀ a ∈ nodeIds items, ∀ b ∈ nodeIds items,
      (pairKey a b ∈ (inferStep items st ab).2 ↔ (a, b) ∈ (specInferStep sst ab).1)) := by
  simp only [inferStep, specInferStep, centerY]
  by_cases hov : min ab.1.2.right ab.2.2.right - max ab.1.2.left ab.2.2.left ≤ 0
  · rw [if_pos hov,
      if_neg (fun hc => absurd hc.1 (not_lt.mpr hov) :
        ¬(0 < min ab.1.2.right ab.2.2.right - max ab.1.2.left ab.2.2.left ∧
          |(ab.2.2.top + ab.2.2.bottom) / 2 - (ab.1.2.top + ab.1.2.bottom) / 2| ≤
            min ab.1.2.height ab.2.2.height * (75 / 100) ∧
          (ab.1.1, ab.2.1) ∉ sst.1))]
    exact ⟨h1, h2⟩
  · rw [if_neg hov]
    by_cases hgap : |(ab.2.2.top + ab.2.2.bottom) / 2 - (ab.1.2.top + ab.1.2.bottom) / 2| >
        min ab.1.2.height ab.2.2.height * (75 / 100)
    · rw [if_pos hgap,
        if_neg (fun hc => absurd hc.2.1 (not_le.mpr hgap) :
          ¬(0 < min ab.1.2.right ab.2.2.right - max ab.1.2.left ab.2.2.left ∧
            |(ab.2.2.top + ab.2.2.bottom) / 2 - (ab.1.2.top + ab.1.2.bottom) / 2| ≤
              min ab.1.2.height ab.2.2.height * (75 / 100) ∧
            (ab.1.1, ab.2.1) ∉ sst.1))]
      exact ⟨h1, h2⟩
    · rw [if_neg hgap]
      have hsort2 : (ab.1.2.top + ab.1.2.bottom) / 2 ≤ (ab.2.2.top + ab.2.2.bottom) / 2 := hsort
      rw [if_pos hsort2, if_pos hsort2]
      by_cases hkey : st.2.contains (pairKey ab.1.1 ab.2.1) = true
      · have hmem : (ab.1.1, ab.2.1) ∈ sst.1 :=
          (h2 ab.1.1 ha ab.2.1 hb).mp ((str_contains_iff st.2 (pairKey ab.1.1 ab.2.1)).mp hkey)
        rw [if_pos hkey,
          if_neg (fun hc => absurd hmem hc.2.2 :
            ¬(0 < min ab.1.2.right ab.2.2.right - max ab.1.2.left ab.2.2.left ∧
              |(ab.2.2.top + ab.2.2.bottom) / 2 - (ab.1.2.top + ab.1.2.bottom) / 2| ≤
                min ab.1.2.height ab.2.2.height * (75 / 100) ∧
              (ab.1.1, ab.2.1) ∉ sst.1))]
        exact ⟨h1, h2⟩
      · have hspec : 0 < min ab.1.2.right ab.2.2.right - max ab.1.2.left ab.2.2.left ∧
            |(ab.2.2.top + ab.2.2.bottom) / 2 - (ab.1.2.top + ab.1.2.bottom) / 2| ≤
              min ab.1.2.height ab.2.2.height * (75 / 100) ∧
            (ab.1.1, ab.2.1) ∉ sst.1 :=
          ⟨not_le.mp hov, not_lt.mp hgap,
           fun hmem => hkey ((str_contains_iff st.2 (pairKey ab.1.1 ab.2.1)).mpr
             ((h2 ab.1.1 ha ab.2.1 hb).mpr hmem))⟩
        rw [if_neg hkey, if_pos hspec]
        obtain ⟨fa, hfa, hfane⟩ := idToAliasM_total items ab.1.1 ha
        obtain ⟨ta, hta, htane⟩ := idToAliasM_total items ab.2.1 hb
        rw [hfa, hta]
        show ((if fa ≠ "" ∧ ta ≠ "" then
            (st.1 ++ [{ fromId := ab.1.1, toId := ab.2.1, fromAlias := fa, toAlias := ta,
                        connectorId := "inferred-dependency", label := none }],
             setAdd st.2 (pairKey ab.1.1 ab.2.1))
          else st).1.map edgePair = E0 ++ (sst.2 ++ [(ab.1.1, ab.2.1)])) ∧
          (∀ a ∈ nodeIds items, ∀ b ∈ nodeIds items,
            (pairKey a b ∈ (if fa ≠ "" ∧ ta ≠ "" then
              (st.1 ++ [{ fromId := ab.1.1, toId := ab.2.1, fromAlias := fa, toAlias := ta,
                          connectorId := "inferred-dependency", label := none }],
               setAdd st.2 (pairKey ab.1.1 ab.2.1))
            else st).2 ↔ (a, b) ∈ sst.1 ++ [(ab.1.1, ab.2.1)]))
        rw [if_pos ⟨hfane, htane⟩]
        refine ⟨?_, ?_⟩
        · show (st.1 ++ [({ fromId := ab.1.1, toId := ab.2.1, fromAlias := fa, toAlias := ta,
                            connectorId := "inferred-dependency",
                            label := none } : Edge)]).map edgePair =
              E0 ++ (sst.2 ++ [(ab.1.1, ab.2.1)])
          rw [List.map_append, h1, List.append_assoc]
          rfl
        · intro a hA b hB
          show pairKey a b ∈ setAdd st.2 (pairKey ab.1.1 ab.2.1) ↔
            (a, b) ∈ sst.1 ++ [(ab.1.1, ab.2.1)]
          rw [mem_setAdd, List.mem_append]
          constructor
          · rintro (hk | hk)
            · exact Or.inl ((h2 a hA b hB).mp hk)
            · obtain ⟨hac, hbd⟩ := hinj a hA b hB ab.1.1 ha ab.2.1 hb hk
              right
              rw [hac, hbd]
              exact List.mem_singleton.mpr rfl
          · rintro (hk | hk)
            · exact Or.inl ((h2 a hA b hB).mpr hk)
            · have hk2 : (a, b) = (ab.1.1, ab.2.1) := List.mem_singleton.mp hk
              have ha2 : a = ab.1.1 := congrArg Prod.fst hk2
              have hb2 : b = ab.2.1 := congrArg Prod.snd hk2
              right
              rw [ha2, hb2]

theorem inferFold_rel (items : List Item)
    (hinj : ∀ a ∈ nodeIds items, ∀ b ∈ nodeIds items, ∀ c ∈ nodeIds items,
      ∀ d ∈ nodeIds items, pairKey a b = pairKey c d → a = c ∧ b = d)
    (E0 : List (String × String)) :
    ∀ (ps : List ((String × BBox) × (String × BBox))),
      (∀ p ∈ ps, p.1.1 ∈ nodeIds items ∧ p.2.1 ∈ nodeIds items ∧
        centerY p.1.2 ≤ centerY p.2.2) →
      ∀ (st : List Edge × List String)
        (sst : List (String × String) × List (String × String)),
      st.1.map edgePair = E0 ++ sst.2 →
      (∀ a ∈ nodeIds items, ∀ b ∈ nodeIds items,
        (pairKey a b ∈ st.2 ↔ (a, b) ∈ sst.1)) →
      (ps.foldl (inferStep items) st).1.map edgePair =
        E0 ++ (ps.foldl specInferStep sst).2 ∧
      (∀ a ∈ nodeIds items, ∀ b ∈ nodeIds items,
        (pairKey a b ∈ (ps.foldl (inferStep items) st).2 ↔
         (a, b) ∈ (ps.foldl specInferStep sst).1))
  | [], _, st, sst, h1, h2 => ⟨h1, h2⟩
  | p :: rest, hps, st, sst, h1, h2 => by
    rw [List.foldl_cons, List.foldl_cons]
    obtain ⟨hpa, hpb, hpc⟩ := hps p (List.mem_cons_self p rest)
    obtain ⟨g1, g2⟩ := inferStep_rel items hinj E0 st sst p hpa hpb hpc h1 h2
    exact inferFold_rel items hinj E0 rest
      (fun q hq => hps q (List.mem_cons_of_mem p hq)) _ _ g1 g2

theorem inferGroup_rel (items : List Item)
    (hinj : ∀ a ∈ nodeIds items, ∀ b ∈ nodeIds items, ∀ c ∈ nodeIds items,
      ∀ d ∈ nodeIds items, pairKey a b = pairKey c d → a = c ∧ b = d)
    (E0 : List (String × String)) (ids : List String)
    (hids : ∀ id ∈ ids, id ∈ nodeIds items)
    (st : List Edge × List String)
    (sst : List (String × String) × List (String × String))
    (h1 : st.1.map edgePair = E0 ++ sst.2)
    (h2 : ∀ a ∈ nodeIds items, ∀ b ∈ nodeIds items,
      (pairKey a b ∈ st.2 ↔ (a, b) ∈ sst.1)) :
    (inferGroup items st ids).1.map edgePair =
      E0 ++ ((adjacentPairs (sortedGroup items ids)).foldl specInferStep sst).2 ∧
    (∀ a ∈ nodeIds items, ∀ b ∈ nodeIds items,
      (pairKey a b ∈ (inferGroup items st ids).2 ↔
       (a, b) ∈ ((adjacentPairs (sortedGroup items ids)).foldl specInferStep sst).1)) := by
  unfold inferGroup
  by_cases hlen : ids.length < 2
  · rw [if_pos hlen]
    have hnil : adjacentPairs (sortedGroup items ids) = [] := by
      apply adjacentPairs_nil_of_short
      have hle : (sortedGroup items ids).length ≤ ids.length := by
        unfold sortedGroup
        rw [length_sortLe]
        exact List.length_filterMap_le _ _
      omega
    rw [hnil]
    exact ⟨h1, h2⟩
  · rw [if_neg hlen]
    refine inferFold_rel items hinj E0 (adjacentPairs (sortedGroup items ids)) ?_ st sst h1 h2
    intro p hp
    have hsorted := pairwise_zip_tail
      (fun a b : String × BBox => decide (centerY a.2 ≤ centerY b.2) = true)
      (sortedGroup items ids) (sortedGroup_pairwise items ids) p hp
    unfold adjacentPairs at hp
    obtain ⟨hp1, hp2t⟩ := List.of_mem_zip hp
    exact ⟨hids _ (sortedGroup_mem items ids p.1 hp1),
      hids _ (sortedGroup_mem items ids p.2 (List.mem_of_mem_tail hp2t)),
      of_decide_eq_true hsorted⟩

theorem inferAll_fold_rel (items : List Item)
    (hinj : ∀ a ∈ nodeIds items, ∀ b ∈ nodeIds items, ∀ c ∈ nodeIds items,
      ∀ d ∈ nodeIds items, pairKey a b = pairKey c d → a = c ∧ b = d)
    (E0 : List (String × String)) :
    ∀ (gs : List (String × List String)),
      (∀ g ∈ gs, ∀ id ∈ g.2, id ∈ nodeIds items) →
      ∀ (st : List Edge × List String)
        (sst : List (String × String) × List (String × String)),
      st.1.map edgePair = E0 ++ sst.2 →
      (∀ a ∈ nodeIds items, ∀ b ∈ nodeIds items,
        (pairKey a b ∈ st.2 ↔ (a, b) ∈ sst.1)) →
      (gs.foldl (fun st g => inferGroup items st g.2) st).1.map edgePair =
        E0 ++ (gs.foldl (fun sst g =>
          (adjacentPairs (sortedGroup items g.2)).foldl specInferStep sst) sst).2 ∧
      (∀ a ∈ nodeIds items, ∀ b ∈ nodeIds items,
        (pairKey a b ∈ (gs.foldl (fun st g => inferGroup items st g.2) st).2 ↔
         (a, b) ∈ (gs.foldl (fun sst g =>
           (adjacentPairs (sortedGroup items g.2)).foldl specInferStep sst) sst).1))
  | [], _, st, sst, h1, h2 => ⟨h1, h2⟩
  | g :: rest, hgs, st, sst, h1, h2 => by
    rw [List.foldl_cons, List.foldl_cons]
    obtain ⟨g1, g2⟩ := inferGroup_rel items hinj E0 g.2
      (hgs g (List.mem_cons_self g rest)) st sst h1 h2
    exact inferAll_fold_rel items hinj E0 rest
      (fun q hq => hgs q (List.mem_cons_of_mem g hq)) _ _ g1 g2

/-- C3: the dependency edges produced by frame_to_mermaid are the explicit
connector edges followed by the inferred stacking edges; as ordered id
pairs, the inferred ones are exactly those added by the claimed rule
(positive horizontal overlap, centre distance within three quarters of the
smaller height, pair not already present), processed over adjacent pairs
of each containment group sorted by vertical centre.  The hypothesis says
the "a->b" key strings used by the code to deduplicate pairs decode
unambiguously on this board's node ids (no id embeds the separator in a
confusable way). -/
theorem c3_inferredEdges (items : List Item) (connectors : List Connector)
    (hinj : ∀ a ∈ nodeIds items, ∀ b ∈ nodeIds items, ∀ c ∈ nodeIds items,
      ∀ d ∈ nodeIds items, pairKey a b = pairKey c d → a = c ∧ b = d) :
    (edgesAndPairs items connectors).1.map edgePair =
      (buildExplicit items connectors).1.map edgePair ++
        specInferredEdges items connectors := by
  obtain ⟨hend, hkeys⟩ := explicit_foldl_inv items hinj connectors ([], [])
    (fun e he => absurd he (List.not_mem_nil e))
    (fun a hA b hB => ⟨fun h => absurd h (List.not_mem_nil _),
      fun h => absurd h (List.not_mem_nil _)⟩)
  unfold edgesAndPairs inferAll specInferredEdges
  obtain ⟨hmain, _⟩ := inferAll_fold_rel items hinj
    ((buildExplicit items connectors).1.map edgePair)
    (groupsOf items)
    (fun g hg id hid => groupsOf_vals items g hg id hid)
    (buildExplicit items connectors)
    ((buildExplicit items connectors).1.map edgePair, [])
    (by rw [List.append_nil])
    (fun a hA b hB => hkeys a hA b hB)
  exact hmain

/-- Closed instance of C3 on the concrete two-item board with no
connectors (key-injectivity checked by evaluation). -/
theorem c3_inferredEdges_witness :
    (edgesAndPairs exItems []).1.map edgePair =
      (buildExplicit exItems []).1.map edgePair ++ specInferredEdges exItems [] :=
  c3_inferredEdges exItems [] (by decide)

/-- C4: flowchart extraction is deterministic — the Mermaid text is a
function of the fetched item list, connector list, direction argument and
frame title/id alone, so two runs on identical inputs produce identical
(byte-for-byte equal) diagram text.  The whole pipeline (alias numbering,
grouping, sorting, containment, edge inference, emission) is modelled by
the pure function frameToMermaid with no other inputs, and stable sorting
and insertion-order maps fix every iteration order. -/
theorem c4_deterministic (items1 items2 : List Item)
    (connectors1 connectors2 : List Connector)
    (direction1 direction2 : String) (frameTitle1 frameTitle2 : Option String)
    (frameId1 frameId2 : String)
    (hi : items1 = items2) (hc : connectors1 = connectors2)
    (hd : direction1 = direction2) (ht : frameTitle1 = frameTitle2)
    (hf : frameId1 = frameId2) :
    frameToMermaid items1 connectors1 direction1 frameTitle1 frameId1 =
      frameToMermaid items2 connectors2 direction2 frameTitle2 frameId2 := by
  rw [hi, hc, hd, ht, hf]

/-- Closed instance of C4: a second run on the concrete two-item board
yields the identical string. -/
theorem c4_deterministic_witness :
    frameToMermaid exItems [] "TD" (some "F") "f1" =
      frameToMermaid exItems [] "TD" (some "F") "f1" :=
  c4_deterministic exItems exItems [] [] "TD" "TD" (some "F") (some "F")
    "f1" "f1" rfl rfl rfl rfl rfl

end Miro
